import Mathlib

/-!
# Verification of the arcsim-python mesh / simulation-state core

Shallow embedding of `src/mesh.py` and `src/simulation_state.py`.

Conventions of the embedding:
* Python floats are modelled as exact rationals (`ℚ`); the spec's claims are
  all stated "up to floating-point tolerance", and none of them hinges on
  rounding, so the exact-rational model is the faithful one.
* Text lines are modelled as `List Char`; a file is a `List (List Char)` of
  its lines (Python `readlines` output, already split).
* Fallible Python code (exceptions: `TypeError` from `map(float, None)`,
  `ValueError` from `int`/`float`/shape mismatches, `AttributeError` from a
  missing attribute, `IndexError` from bad indexing) is modelled with
  `Option`: `none` means the call raises.
* The `parse` library's `{}` template fields are lazy (`(.+?)` with a full
  anchored match): a field is the shortest non-empty run of characters
  followed by the next literal separator, the final field is the whole
  non-empty remainder.  `splitLazy` below implements exactly that for the
  single-character separators used by this repository's templates.
-/

-- Batteries marks the `Rat` field operations `@[irreducible]`, which blocks
-- `decide` on concrete rational computations; restore the default
-- reducibility so that concrete runs of the model evaluate.
attribute [local semireducible] Rat.add Rat.mul Rat.inv Rat.sub

namespace ArcsimPy

/-- A 2-D point with exact rational coordinates. -/
abbrev Vec2 := ℚ × ℚ

/-- A 3-D point with exact rational coordinates. -/
abbrev Vec3 := ℚ × ℚ × ℚ

/-! ## Character / string primitives (Python `str` operations) -/

/-- Python `str.strip()`: remove whitespace from both ends. -/
def stripC (l : List Char) : List Char :=
  ((l.dropWhile Char.isWhitespace).reverse.dropWhile Char.isWhitespace).reverse

/-- `startsWithC p l` is Python `l.startswith(p)`. -/
def startsWithC : List Char → List Char → Bool
  | [], _ => true
  | _ :: _, [] => false
  | p :: ps, c :: cs => p = c && startsWithC ps cs

/-- `containsC c l` is Python `c in l` for a single character. -/
def containsC (c : Char) (l : List Char) : Bool := l.contains c

/-- Split at the first occurrence of `c`: `splitFirst c l = some (pre, post)`
with `l = pre ++ c :: post` and `c ∉ pre`; `none` when `c` does not occur. -/
def splitFirst (c : Char) : List Char → Option (List Char × List Char)
  | [] => none
  | x :: xs =>
    if x = c then some ([], xs)
    else (splitFirst c xs).map (fun p => (x :: p.1, p.2))

/-- A lazy template field of the `parse` library followed by the literal
separator `c`: the shortest non-empty run of characters followed by `c`. -/
def splitLazy (c : Char) : List Char → Option (List Char × List Char)
  | [] => none
  | x :: xs => (splitFirst c xs).map (fun p => (x :: p.1, p.2))

/-- Python `str.split()` (no argument): split on runs of whitespace,
discarding empty words. -/
def wordsC (l : List Char) : List (List Char) :=
  (l.splitOnP Char.isWhitespace).filter (fun w => !w.isEmpty)

/-! ## Decimal numerals: Python `int`, `float`, and `str` of a float -/

/-- Numeric value of an ASCII digit character. -/
def digitVal (c : Char) : ℕ := c.toNat - 48

/-- ASCII character of a decimal digit. -/
def digitChar (d : ℕ) : Char := Char.ofNat (48 + d)

/-- Value of a most-significant-first digit string. -/
def digitsVal (cs : List Char) : ℕ :=
  cs.foldl (fun acc c => 10 * acc + digitVal c) 0

/-- Parse a non-empty all-digit string as a natural number. -/
def parseNatC (cs : List Char) : Option ℕ :=
  if cs ≠ [] ∧ cs.all Char.isDigit = true then some (digitsVal cs) else none

/-- Modelled from Python `int(s)`: surrounding whitespace is allowed, then an
optional sign and decimal digits.  (Underscores are not modelled.) -/
def parseIntC (cs0 : List Char) : Option ℤ :=
  let cs := stripC cs0
  if cs.head? = some '-' then (parseNatC cs.tail).map (fun n : ℕ => -(n : ℤ))
  else if cs.head? = some '+' then (parseNatC cs.tail).map (fun n : ℕ => (n : ℤ))
  else (parseNatC cs).map (fun n : ℕ => (n : ℤ))

/-- Unsigned decimal mantissa: digits, optionally with one decimal point;
at least one digit in total.  Exact rational value. -/
def parseMantissa (cs : List Char) : Option ℚ :=
  match splitFirst '.' cs with
  | none =>
    if cs ≠ [] ∧ cs.all Char.isDigit = true then some ((digitsVal cs : ℚ)) else none
  | some (ip, fp) =>
    if (ip ≠ [] ∨ fp ≠ []) ∧ ip.all Char.isDigit = true ∧ fp.all Char.isDigit = true then
      some ((digitsVal ip : ℚ) + (digitsVal fp : ℚ) / (10 : ℚ) ^ fp.length)
    else none

/-- Scale by a signed power of ten (a decimal exponent). -/
def applyExp (q : ℚ) (z : ℤ) : ℚ :=
  if 0 ≤ z then q * (10 : ℚ) ^ z.toNat else q / (10 : ℚ) ^ z.natAbs

/-- Unsigned decimal literal with an optional `e`/`E` exponent. -/
def parseDecCore (cs : List Char) : Option ℚ :=
  match splitFirst 'e' cs with
  | some (m, ex) => do
    let q ← parseMantissa m
    let z ← parseIntC ex
    pure (applyExp q z)
  | none =>
    match splitFirst 'E' cs with
    | some (m, ex) => do
      let q ← parseMantissa m
      let z ← parseIntC ex
      pure (applyExp q z)
    | none => parseMantissa cs

/-- Modelled from Python `float(s)`: stripped, optional sign, decimal literal
with optional fraction and exponent.  (`inf`/`nan` are not modelled; they do
not occur in the mesh formats.) -/
def parseFloatC (cs0 : List Char) : Option ℚ :=
  let cs := stripC cs0
  if cs.head? = some '-' then (parseDecCore cs.tail).map (fun q => -q)
  else if cs.head? = some '+' then parseDecCore cs.tail
  else parseDecCore cs

/-- Base-10 digits, least significant first, by structural fuel recursion
(proved equal to `Nat.digits 10` below; the fuel form reduces in the
kernel). -/
def digitsF : ℕ → ℕ → List ℕ
  | 0, _ => []
  | fuel + 1, n => if n = 0 then [] else n % 10 :: digitsF fuel (n / 10)

/-- Base-10 digits of `n`, least significant first. -/
def digits10 (n : ℕ) : List ℕ := digitsF n n

/-- Decimal digit string of `n`, most significant first (`"0"` for zero, as
Python prints it). -/
def fmtNat (n : ℕ) : List Char :=
  if n = 0 then ['0'] else (digits10 n).reverse.map digitChar

/-- `n` printed with leading zeros to exactly `k` digits (for `n < 10^k`). -/
def fmtNatPad (k n : ℕ) : List Char :=
  List.replicate (k - (digits10 n).length) '0' ++
    (digits10 n).reverse.map digitChar

/-- Python `str` of an integer. -/
def fmtInt (z : ℤ) : List Char :=
  if z < 0 then '-' :: fmtNat z.natAbs else fmtNat z.natAbs

/-- Number of times `p ≥ 2` divides `n`, by structural fuel recursion
(the multiplicity is at most the fuel `n`). -/
def countFactorAux (p : ℕ) : ℕ → ℕ → ℕ
  | 0, _ => 0
  | fuel + 1, n =>
    if 2 ≤ p ∧ 0 < n ∧ n % p = 0 then countFactorAux p fuel (n / p) + 1 else 0

/-- Number of times `p ≥ 2` divides `n`. -/
def countFactor (p n : ℕ) : ℕ := countFactorAux p n n

/-- Least `k` with `q * 10^k` integral, when the reduced denominator is of
the form `2^a * 5^b` (true of every binary float); `none` otherwise. -/
def decExponent (q : ℚ) : Option ℕ :=
  let a := countFactor 2 q.den
  let b := countFactor 5 q.den
  if q.den = 2 ^ a * 5 ^ b then some (max a b) else none

/-- Modelled from Python float formatting (`str(x)` / f-string interpolation):
the exact plain decimal form with at least one fractional digit
(`str(1.0) = "1.0"`).  Python's switch to exponent notation for very large or
very small magnitudes is not modelled.  `none` when `q` has no finite decimal
form, which cannot arise from an actual binary float. -/
def fmtFloat (q : ℚ) : Option (List Char) :=
  (decExponent q).map (fun k0 =>
    let k := max k0 1
    let m := q.num.natAbs * 10 ^ k / q.den
    let sign : List Char := if q.num < 0 then ['-'] else []
    sign ++ fmtNat (m / 10 ^ k) ++ '.' :: fmtNatPad k (m % 10 ^ k))

/-! ## Template matching (`parse.parse`)

`parse.parse(template, s)` performs an anchored full match with lazy `{}`
fields.  For the templates used here, a non-final field is the shortest
non-empty run of characters followed by the next literal separator
(`splitLazy`), and the final field is the whole non-empty remainder.  On
`strip`ped lines (no trailing whitespace) this procedure agrees with the
regex semantics, because backtracking can never rescue a match that the
minimal choices lose. -/

/-- Template `lit ++ "{} {} {}"` (used as `"v {} {} {}"` / `"ms {} {} {}"`):
the literal prefix, then two lazy fields each followed by a space, then the
non-empty remainder. -/
def matchT3 (lit : List Char) (l : List Char) :
    Option (List Char × List Char × List Char) :=
  if startsWithC lit l then do
    let (a, r1) ← splitLazy ' ' (l.drop lit.length)
    let (b, r2) ← splitLazy ' ' r1
    if r2 = [] then none else pure (a, b, r2)
  else none

/-- Template `"f {}/{} {}/{} {}/{}"`: six lazy fields with the literal
separators `/`, ` `, `/`, ` `, `/` in order. -/
def matchT6 (l : List Char) :
    Option (List Char × List Char × List Char × List Char × List Char × List Char) :=
  if startsWithC ['f', ' '] l then do
    let (n1, r1) ← splitLazy '/' (l.drop 2)
    let (m1, r2) ← splitLazy ' ' r1
    let (n2, r3) ← splitLazy '/' r2
    let (m2, r4) ← splitLazy ' ' r3
    let (n3, r5) ← splitLazy '/' r4
    if r5 = [] then none else pure (n1, m1, n2, m2, n3, r5)
  else none

/-! ## `Mesh` (src/mesh.py) -/

/-- `Mesh`: vertex positions and triangle vertex ids (`src/mesh.py` 49-57).
Face ids are integers exactly as produced by `int(s) - 1` in `Mesh.load`. -/
structure Mesh where
  vertices : List Vec3
  faces : List (ℤ × ℤ × ℤ)
deriving DecidableEq, Repr

/-- `Mesh.save` (src/mesh.py 74-79): one line `v x y z` per vertex and one
line `f i j k` per face with 1-based ids, floats rendered by Python string
interpolation (`fmtFloat`).  `none` when a coordinate has no finite decimal
form, which cannot happen for an actual binary float. -/
def Mesh.save (m : Mesh) : Option (List (List Char)) := do
  let vlines ← m.vertices.mapM (fun v => do
    let a ← fmtFloat v.1
    let b ← fmtFloat v.2.1
    let c ← fmtFloat v.2.2
    pure ('v' :: ' ' :: (a ++ ' ' :: b ++ ' ' :: c)))
  let flines := m.faces.map (fun f =>
    'f' :: ' ' :: (fmtInt (f.1 + 1) ++ ' ' :: fmtInt (f.2.1 + 1) ++
      ' ' :: fmtInt (f.2.2 + 1)))
  pure (vlines ++ flines)

/-- One line of `Mesh.load`'s loop (src/mesh.py 86-93).  The two branch
guards are independent `if`s in the source: a vertex line must start with
`"v"`, a face line must start with `"f"` and contain no `'/'`.  A matching
line that fails its template or a numeric conversion raises (`none`). -/
def loadStep (acc : List Vec3 × List (ℤ × ℤ × ℤ)) (l0 : List Char) :
    Option (List Vec3 × List (ℤ × ℤ × ℤ)) := do
  let l := stripC l0
  let acc1 ←
    if startsWithC ['v'] l then do
      let (a, b, c) ← matchT3 ['v', ' '] l
      let x ← parseFloatC a
      let y ← parseFloatC b
      let z ← parseFloatC c
      pure (acc.1 ++ [(x, y, z)], acc.2)
    else pure acc
  if startsWithC ['f'] l ∧ containsC '/' l = false then do
    let (a, b, c) ← matchT3 ['f', ' '] l
    let i ← parseIntC a
    let j ← parseIntC b
    let k ← parseIntC c
    pure (acc1.1, acc1.2 ++ [(i - 1, j - 1, k - 1)])
  else pure acc1

/-- `Mesh.load` (src/mesh.py 81-98): fold `loadStep` over the lines of the
file. -/
def Mesh.load (file : List (List Char)) : Option Mesh := do
  let acc ← file.foldlM loadStep ([], [])
  pure ⟨acc.1, acc.2⟩

/-! ## Poisson-disk plane generation (src/mesh.py 100-144)

The algorithm is randomized; the model makes the random draws explicit
arguments.  `np.random.random((2,))` becomes the pair `u ∈ [0,1)²`; each
iteration of the `while` loop consumes one `Round` holding the index draw of
`np.random.choice` and the `k` candidate draws of the inner `for`, where a
candidate draw carries the unit direction `(cos θ, sin θ)` and the radius
drawn from `[r, 2r]`.  The Delaunay triangulation of the resulting points is
computed by `scipy` (an external collaborator, out of scope per the spec)
and is not modelled: the function returns the vertex array. -/

/-- Squared Euclidean distance in the plane.  All claims compare distances
to the nonnegative spacing `r`, so `dist > r ↔ dist² > r²`. -/
def sqDist2 (a b : Vec2) : ℚ := (a.1 - b.1) ^ 2 + (a.2 - b.2) ^ 2

/-- One candidate draw of the inner `for` loop. -/
structure Draw where
  c : ℚ
  s : ℚ
  radius : ℚ
deriving DecidableEq, Repr

/-- One iteration of the `while` loop: the `np.random.choice` index draw and
the candidate draws of the inner `for _ in range(k)`. -/
structure Round where
  pick : ℕ
  draws : List Draw
deriving DecidableEq, Repr

/-- Exact ceiling of a rational, by integer arithmetic. -/
def ceilQ (q : ℚ) : ℤ := (q.num + (q.den : ℤ) - 1) / (q.den : ℤ)

/-- `np.arange start stop step` (`step > 0`) over exact rationals:
`start + i * step` for `0 ≤ i < ⌈(stop - start) / step⌉`. -/
def arangeQ (start stop step : ℚ) : List ℚ :=
  (List.range (ceilQ ((stop - start) / step)).toNat).map
    (fun i : ℕ => start + (i : ℚ) * step)

/-- Ordered insertion without duplicates (row order `lexLtV2`). -/
def insertRow (x : Vec2) : List Vec2 → List Vec2
  | [] => [x]
  | y :: ys =>
    if x = y then y :: ys
    else if x.1 < y.1 ∨ (x.1 = y.1 ∧ x.2 < y.2) then x :: y :: ys
    else y :: insertRow x ys

/-- `np.unique(rows, axis=0)`: the distinct rows in lexicographic order. -/
def uniqueRows (rows : List Vec2) : List Vec2 :=
  rows.foldr insertRow []

/-- The spacing `r = min(size) / res` (src/mesh.py 106). -/
def poissonR (size : Vec2) (res : ℕ) : ℚ := min size.1 size.2 / (res : ℚ)

/-- The seeded vertex list (src/mesh.py 107-117): deduplicated border points
along the four edges, then the random interior point `u * size`. -/
def poissonInit (size : Vec2) (r : ℚ) (u : Vec2) : List Vec2 :=
  let length := arangeQ 0 (size.1 + r) r
  let width := arangeQ 0 (size.2 + r) r
  let bottom := length.map (fun x => (x, (0 : ℚ)))
  let top := length.map (fun x => (x, size.2))
  let left := width.map (fun y => ((0 : ℚ), y))
  let right := width.map (fun y => (size.1, y))
  uniqueRows (bottom ++ top ++ left ++ right) ++ [(u.1 * size.1, u.2 * size.2)]

/-- The body of the inner `for _ in range(k)` (src/mesh.py 124-134), acting
on `(vertices, active, found)`: reject a candidate outside the rectangle;
accept one farther than `r` from every current vertex (squared-distance
comparison; the vertex list is never empty, so `List.all` agrees with
`dist.min() > r`).  An accepted candidate is appended to both lists. -/
def attemptStep (size : Vec2) (r : ℚ) (p : Vec2)
    (st : List Vec2 × List Vec2 × Bool) (d : Draw) :
    List Vec2 × List Vec2 × Bool :=
  let new_p : Vec2 := (p.1 + d.radius * d.c, p.2 + d.radius * d.s)
  if new_p.1 < 0 ∨ new_p.1 > size.1 ∨ new_p.2 < 0 ∨ new_p.2 > size.2 then st
  else if st.1.all (fun q => decide (r ^ 2 < sqDist2 new_p q)) then
    (st.1 ++ [new_p], st.2.1 ++ [new_p], true)
  else st

/-- One iteration of the `while len(active) > 0` loop (src/mesh.py 120-136).
The index drawn by `np.random.choice(np.arange(len(active)))` is always in
range; the model realises the draw as `pick % active.length`.  The inner
loop runs exactly `k` times (`draws.take k`; rounds supply at least `k`
draws).  If no candidate was accepted, the picked point is removed from the
active list — appends during the round happen at the end, so the index
still denotes the picked point, exactly as in Python `del active[idx]`. -/
def roundStep (size : Vec2) (r : ℚ) (k : ℕ) (rd : Round)
    (vertices active : List Vec2) : List Vec2 × List Vec2 :=
  let idx := rd.pick % active.length
  let p := active.getD idx (0, 0)
  let res := (rd.draws.take k).foldl (attemptStep size r p) (vertices, active, false)
  (res.1, if res.2.2 then res.2.1 else res.2.1.eraseIdx idx)

/-- The sampling loop; each iteration consumes one `Round` of randomness.
`none` when the supplied draws run out before the active list empties (the
Python loop would keep drawing; the claims under verification quantify over
completed runs). -/
def poissonLoop (size : Vec2) (r : ℚ) (k : ℕ) :
    List Round → List Vec2 → List Vec2 → Option (List Vec2)
  | [], vertices, active => if active.isEmpty then some vertices else none
  | rd :: rest, vertices, active =>
    if active.isEmpty then some vertices
    else
      let res := roundStep size r k rd vertices active
      poissonLoop size r k rest res.1 res.2

/-- Lift a sampled point to 3-D with `z = 0` (src/mesh.py 141). -/
def liftZ (q : Vec2) : Vec3 := (q.1, q.2, (0 : ℚ))

/-- The vertex array produced by `Mesh.poisson_plane` (src/mesh.py 101-144)
as a function of the explicit random draws: seeds, sampling loop, `z = 0`
lift.  (`faces` come from scipy's Delaunay triangulation, not modelled.) -/
def Mesh.poisson_plane (size : Vec2) (res k : ℕ) (u : Vec2)
    (rounds : List Round) : Option (List Vec3) :=
  let r := poissonR size res
  let p0 : Vec2 := (u.1 * size.1, u.2 * size.2)
  (poissonLoop size r k rounds (poissonInit size r u) [p0]).map
    (fun vs => vs.map liftZ)

/-! ## `SimulationState` (src/simulation_state.py) -/

/-- `NodeType` (src/simulation_state.py 7-9). -/
inductive NodeType
  | NORMAL
  | HANDLE
deriving DecidableEq, Repr

/-- The populated attributes of a non-empty `SimulationState`
(src/simulation_state.py 12-29).  `node_type` and `nodes_velocity` are
wrapped in `Option` because a Python attribute can simply be absent:
`hasattr` probes model as `isSome`, and reading an absent attribute raises
`AttributeError` (modelled as `none` in the surrounding computation). -/
structure SimData where
  verts : List Vec3
  nodes : List (List Vec3)
  node_type : Option (List (List NodeType))
  faces : List (ℤ × ℤ × ℤ)
  nodes_velocity : Option (List (List Vec3))
deriving DecidableEq, Repr

/-- `SimulationState`: the empty sentinel (`empty=True`, no populated
arrays) or a populated state (`empty=False`). -/
inductive SimulationState
  | empty : SimulationState
  | state : SimData → SimulationState
deriving DecidableEq, Repr

/-- All rows have one common length — the success condition of
`np.vstack` / `np.concatenate(axis=0)` on the arrays of this model. -/
def sameWidth {α : Type} : List (List α) → Bool
  | [] => true
  | row :: rest => rest.all (fun x => x.length = row.length)

/-- `np.vstack` / `np.concatenate(axis=0)`: concatenation along the leading
axis; raises (`none`) when the trailing dimensions disagree. -/
def vstackQ {α : Type} (a b : List (List α)) : Option (List (List α)) :=
  if sameWidth (a ++ b) then some (a ++ b) else none

/-- `SimulationState.merge` (src/simulation_state.py 68-91), line by line:
empty inputs short-circuit; `faces` and `verts` are copied from `obj1` with
no comparison against `obj2` (the source comments read "Assume obj1.faces ==
obj2.faces"); `nodes` and `node_type` are stacked unconditionally — an
absent `node_type` raises `AttributeError` (`none`); `nodes_velocity` is
stacked only when present on both inputs (`hasattr` guard) and is otherwise
left absent. -/
def SimulationState.merge :
    SimulationState → SimulationState → Option SimulationState
  | .empty, obj2 => some obj2
  | obj1, .empty => some obj1
  | .state d1, .state d2 => do
    let nodes ← vstackQ d1.nodes d2.nodes
    let nt1 ← d1.node_type
    let nt2 ← d2.node_type
    let nt ← vstackQ nt1 nt2
    let vel ← match d1.nodes_velocity, d2.nodes_velocity with
      | some v1, some v2 => (vstackQ v1 v2).map some
      | _, _ => pure none
    pure (.state ⟨d1.verts, nodes, some nt, d1.faces, vel⟩)

/-- Python dict assignment `d[k] = v` on an insertion-ordered association
list: overwrite in place when the key exists, else append. -/
def dictInsert (k v : ℤ) : List (ℤ × ℤ) → List (ℤ × ℤ)
  | [] => [(k, v)]
  | (k0, v0) :: rest =>
    if k0 = k then (k0, v) :: rest else (k0, v0) :: dictInsert k v rest

/-- Scan state of `parse_obj`'s line loop (src/simulation_state.py 113-117):
face triples `f`, material vertices `verts`, world nodes `nodes`, and the
insertion-ordered `world_to_mesh` dict. -/
structure ScanState where
  f : List (ℤ × ℤ × ℤ)
  verts : List Vec3
  nodes : List Vec3
  world_to_mesh : List (ℤ × ℤ)
deriving DecidableEq, Repr

/-- Processing of one line by `parse_obj`'s loop
(src/simulation_state.py 120-142).  The guards are `startswith` checks on
the stripped line, in `if`/`elif` order `"v"`, `"f"`, `"ms"`; any other line
falls through unchanged.  In the face branch, all six template fields are
converted by `int(s) - 1` (line 128-132; the even positions are the world
ids), the material ids are then recomputed from the whitespace-split parts
(line 134, `int(part.split("/")[1]) - 1` for every part after the first),
and the three corner pairs are written into the dict in order (line 137-138,
later writes overwriting earlier ones). -/
def scanStep (st : ScanState) (l0 : List Char) : Option ScanState :=
  let l := stripC l0
  if startsWithC ['v'] l then do
    let (a, b, c) ← matchT3 ['v', ' '] l
    let x ← parseFloatC a
    let y ← parseFloatC b
    let z ← parseFloatC c
    pure ⟨st.f, st.verts, st.nodes ++ [(x, y, z)], st.world_to_mesh⟩
  else if startsWithC ['f'] l then do
    let (n1, m1, n2, m2, n3, m3) ← matchT6 l
    let w1 ← parseIntC n1
    let t1 ← parseIntC m1
    let w2 ← parseIntC n2
    let t2 ← parseIntC m2
    let w3 ← parseIntC n3
    let t3 ← parseIntC m3
    let _ := (t1, t2, t3)  -- consumed by line 132's comprehension, discarded
    let parts := wordsC l
    let ms ← (parts.drop 1).mapM (fun part => do
      let comp ← (part.splitOn '/').get? 1
      let v ← parseIntC comp
      pure (v - 1))
    match ms with
    | mf1 :: mf2 :: mf3 :: _ =>
      pure ⟨st.f ++ [(w1 - 1, w2 - 1, w3 - 1)], st.verts, st.nodes,
        dictInsert (w3 - 1) mf3 (dictInsert (w2 - 1) mf2
          (dictInsert (w1 - 1) mf1 st.world_to_mesh))⟩
    | _ => none
  else if startsWithC ['m', 's'] l then do
    let (a, b, c) ← matchT3 ['m', 's', ' '] l
    let x ← parseFloatC a
    let y ← parseFloatC b
    let z ← parseFloatC c
    pure ⟨st.f, st.verts ++ [(x, y, z)], st.nodes, st.world_to_mesh⟩
  else pure st

/-- Insert an association pair into a key-sorted list. -/
def insertByKey (kv : ℤ × ℤ) : List (ℤ × ℤ) → List (ℤ × ℤ)
  | [] => [kv]
  | kv0 :: rest =>
    if kv.1 ≤ kv0.1 then kv :: kv0 :: rest else kv0 :: insertByKey kv rest

/-- Sort an association list by key ascending (`np.argsort` over the dict
keys; the keys are distinct, so the permutation is unique). -/
def sortByKey : List (ℤ × ℤ) → List (ℤ × ℤ)
  | [] => []
  | kv :: rest => insertByKey kv (sortByKey rest)

/-- NumPy integer array indexing: a negative index wraps once from the end;
anything out of `[-len, len)` raises. -/
def npIndex {α : Type} (xs : List α) (i : ℤ) : Option α :=
  let j := if i < 0 then i + (xs.length : ℤ) else i
  if 0 ≤ j ∧ j < (xs.length : ℤ) then xs.get? j.toNat else none

/-- `SimulationState.parse_obj` (src/simulation_state.py 93-154).  After the
line scan: `np.array(list(world_to_mesh.items()))` followed by `[:,0]`
raises when the dict is empty (the array is then 1-dimensional); otherwise
the pairs are sorted by world id and the material ids index into the `ms`
rows (`np.array(verts)[...]`, NumPy indexing) to produce `verts` aligned
with world order.  The state gets the face list, the permuted `verts`, and
`nodes` with a leading frame axis (`np.expand_dims(..., axis=0)`);
`node_type` and `nodes_velocity` are never assigned. -/
def SimulationState.parse_obj (file : List (List Char)) :
    Option SimulationState := do
  let st ← file.foldlM scanStep ⟨[], [], [], []⟩
  if st.world_to_mesh.isEmpty then none
  else do
    let verts ← (sortByKey st.world_to_mesh).mapM (fun kv => npIndex st.verts kv.2)
    pure (.state ⟨verts, [st.nodes], none, st.f, none⟩)

/-! ## Derived forms used to state the claims -/

/-- The candidate bounds check of src/mesh.py line 128, as acceptance:
the point lies in `[0, width] × [0, height]`. -/
def inRectB (size : Vec2) (p : Vec2) : Bool :=
  decide (0 ≤ p.1) && decide (p.1 ≤ size.1) &&
    decide (0 ≤ p.2) && decide (p.2 ≤ size.2)

/-- `acceptedExt size r base ext`: reading `ext` in order as the points the
sampling loop appended after `base`, every one lies in the rectangle and is
farther than `r` (strictly) from every vertex present when it was accepted. -/
def acceptedExt (size : Vec2) (r : ℚ) : List Vec2 → List Vec2 → Bool
  | _, [] => true
  | base, x :: rest =>
    inRectB size x && base.all (fun y => decide (r ^ 2 < sqDist2 x y)) &&
      acceptedExt size r (base ++ [x]) rest

/-- Shape discipline of a state: every per-frame row of `nodes`, of the
(present) `node_type`, and of any present `nodes_velocity` has width `w`
(the per-node second axis of the NumPy arrays). -/
def uniformB (w : ℕ) : SimulationState → Bool
  | .empty => true
  | .state d =>
    d.nodes.all (fun row => row.length = w) &&
    (match d.node_type with
     | some nt => nt.all (fun row => row.length = w)
     | none => false) &&
    (match d.nodes_velocity with
     | some v => v.all (fun row => row.length = w)
     | none => true)

/-- The record produced by a successful non-empty merge: `faces`/`verts`
from the first input, leading-axis concatenations, `nodes_velocity` only
when present on both sides. -/
def mergeData (d1 d2 : SimData) : SimData :=
  ⟨d1.verts, d1.nodes ++ d2.nodes,
   match d1.node_type, d2.node_type with
   | some a, some b => some (a ++ b)
   | _, _ => none,
   d1.faces,
   match d1.nodes_velocity, d2.nodes_velocity with
   | some a, some b => some (a ++ b)
   | _, _ => none⟩

/-- The `(world id, material id)` corner pairs a line contributes to
`world_to_mesh`, in assignment order: three pairs for a well-formed `f`
line (ids converted exactly as in `scanStep`), nothing otherwise. -/
def lineCornerPairs (l0 : List Char) : List (ℤ × ℤ) :=
  let l := stripC l0
  if startsWithC ['v'] l then []
  else if startsWithC ['f'] l then
    match matchT6 l with
    | some (n1, _, n2, _, n3, _) =>
      match parseIntC n1, parseIntC n2, parseIntC n3 with
      | some w1, some w2, some w3 =>
        match ((wordsC l).drop 1).mapM (fun part => do
            let comp ← (part.splitOn '/').get? 1
            let v ← parseIntC comp
            pure (v - 1)) with
        | some (mf1 :: mf2 :: mf3 :: _) =>
          [(w1 - 1, mf1), (w2 - 1, mf2), (w3 - 1, mf3)]
        | _ => []
      | _, _, _ => []
    | none => []
  else []

/-- All corner pairs of a file in assignment order. -/
def fileCornerPairs (file : List (List Char)) : List (ℤ × ℤ) :=
  (file.map lineCornerPairs).flatten

/-- The material id assigned last to world id `k` across a pair list. -/
def lookupLast (k : ℤ) (ps : List (ℤ × ℤ)) : Option ℤ :=
  List.lookup k ps.reverse

/-! ## Concrete example data -/

/-- The frame-export file of the spec's worked example (§8): three nodes,
three material vertices, one face. -/
def frameA : List (List Char) :=
  [("v 0 0 0".toList), ("v 1 0 0".toList), ("v 0 1 0".toList),
   ("ms 0 0 0".toList), ("ms 1 0 0".toList), ("ms 0 1 0".toList),
   ("f 1/1 2/2 3/3".toList)]

/-- `frameA` with one extra node declared by a `v` line but referenced by no
face. -/
def frame9 : List (List Char) :=
  [("v 0 0 0".toList), ("v 1 0 0".toList), ("v 0 1 0".toList),
   ("v 1 1 0".toList),
   ("ms 0 0 0".toList), ("ms 1 0 0".toList), ("ms 0 1 0".toList),
   ("ms 1 1 0".toList),
   ("f 1/1 2/2 3/3".toList)]

/-- A file whose two faces map world node 0 to material vertex 0 first and
to material vertex 3 afterwards — an inconsistent world/material mapping. -/
def frame2 : List (List Char) :=
  [("v 0 0 0".toList), ("v 1 0 0".toList), ("v 0 1 0".toList),
   ("v 1 1 0".toList),
   ("ms 0 0 0".toList), ("ms 1 0 0".toList), ("ms 0 1 0".toList),
   ("ms 1 1 0".toList),
   ("f 1/1 2/2 3/3".toList), ("f 1/4 2/2 3/3".toList)]

/-- A single-frame state with `node_type` present (as `load_obj` builds
them: one role row per frame). -/
def dA : SimData :=
  ⟨[(0, 0, 0), (1, 0, 0), (0, 1, 0)],
   [[(0, 0, 0), (1, 0, 0), (0, 1, 0)]],
   some [[.NORMAL, .NORMAL, .NORMAL]],
   [(0, 1, 2)], none⟩

/-- A single-frame state with the same node count as `dA` but different
`faces` (reversed winding) and different positions. -/
def dB : SimData :=
  ⟨[(0, 0, 0), (1, 0, 0), (0, 1, 0)],
   [[(0, 0, 1), (1, 0, 1), (0, 1, 1)]],
   some [[.NORMAL, .HANDLE, .NORMAL]],
   [(2, 1, 0)], none⟩

/-- A single-frame state lacking `node_type` (exactly what `parse_obj`
produces), with velocities present. -/
def dP : SimData :=
  ⟨[(0, 0, 0), (1, 0, 0), (0, 1, 0)],
   [[(0, 0, 0), (1, 0, 0), (0, 1, 0)]],
   none,
   [(0, 1, 2)],
   some [[(0, 0, 0), (0, 0, 0), (0, 0, 0)]]⟩

/-- A second such state, same topology as `dP`. -/
def dQ : SimData :=
  ⟨[(0, 0, 0), (1, 0, 0), (0, 1, 0)],
   [[(0, 0, 2), (1, 0, 2), (0, 1, 2)]],
   none,
   [(0, 1, 2)],
   some [[(0, 0, 1), (0, 0, 1), (0, 0, 1)]]⟩

/-- A fully-populated single-frame state (roles and velocities present). -/
def dV1 : SimData :=
  ⟨[(0, 0, 0), (1, 0, 0), (0, 1, 0)],
   [[(0, 0, 0), (1, 0, 0), (0, 1, 0)]],
   some [[.HANDLE, .NORMAL, .NORMAL]],
   [(0, 1, 2)],
   some [[(0, 0, 0), (0, 0, 0), (0, 0, 0)]]⟩

/-- A second fully-populated single-frame state with `dV1`'s topology. -/
def dV2 : SimData :=
  ⟨[(0, 0, 0), (1, 0, 0), (0, 1, 0)],
   [[(0, 0, 3), (1, 0, 3), (0, 1, 3)]],
   some [[.HANDLE, .NORMAL, .NORMAL]],
   [(0, 1, 2)],
   some [[(0, 0, 1), (0, 0, 1), (0, 0, 1)]]⟩

/-- Rounds whose every candidate is drawn at angle `π` (direction
`(-1, 0)`, exactly on the unit circle) with radius `r`, pushing the
candidate out of the rectangle to the left: every attempt is rejected and
the loop terminates with the seeds only. -/
def cexRounds : List Round :=
  [⟨0, [⟨-1, 0, 1/4⟩, ⟨-1, 0, 1/4⟩, ⟨-1, 0, 1/4⟩]⟩]

/-- The same all-rejecting randomness for the `(1, 4/5)` rectangle
(radius `2r = 4/5`). -/
def cex4Rounds : List Round :=
  [⟨0, [⟨-1, 0, 4/5⟩, ⟨-1, 0, 4/5⟩, ⟨-1, 0, 4/5⟩]⟩]

/-- A three-round run (`k = 1`) that accepts one interior candidate
`(3/4, 3/8)` from the seed `(3/8, 3/8)` and then retires both active
points. -/
def wRounds : List Round :=
  [⟨0, [⟨1, 0, 3/8⟩]⟩, ⟨0, [⟨-1, 0, 1/2⟩]⟩, ⟨0, [⟨-1, 0, 1/2⟩]⟩]

/-! # Theorems -/

/-! ## Claim C7 — unrecognized line prefixes -/

/-- C7 (counterexample): the claim says a line with an unknown prefix is
always skipped.  `frameA` parses successfully, but appending the line
`vn 0 1 0` — whose record kind `vn` is none of `v`, `f`, `ms` — makes
`parse_obj` fail: the line starts with the character `v`, so the vertex
branch runs `parse.parse("v {} {} {}", l)`, which returns `None`, and
`map(float, None)` raises `TypeError`. -/
theorem parse_obj_unknown_prefix_cex :
    (SimulationState.parse_obj frameA).isSome = true ∧
    (wordsC ("vn 0 1 0".toList)).head? = some ("vn".toList) ∧
    ("vn".toList ≠ "v".toList ∧ "vn".toList ≠ "f".toList ∧
      "vn".toList ≠ "ms".toList) ∧
    SimulationState.parse_obj (frameA ++ [("vn 0 1 0".toList)]) = none := by
  decide

/-- C7 (amended): a line whose stripped form starts with none of `"v"`,
`"f"`, `"ms"` is skipped — the scan state is unchanged and no failure is
raised.  (Lines that do start with one of those characters but fail the
corresponding template crash the parser, per the counterexample.) -/
theorem scanStep_skips_unrecognized (st : ScanState) (l : List Char)
    (h1 : startsWithC ['v'] (stripC l) = false)
    (h2 : startsWithC ['f'] (stripC l) = false)
    (h3 : startsWithC ['m', 's'] (stripC l) = false) :
    scanStep st l = some st := by
  unfold scanStep
  simp only [h1, h2, h3, Bool.false_eq_true, if_false]
  rfl

/-- Witness for `scanStep_skips_unrecognized` at the reserved edge line
`e 1 2`. -/
theorem scanStep_skips_unrecognized_witness :
    (startsWithC ['v'] (stripC ("e 1 2".toList)) = false ∧
      startsWithC ['f'] (stripC ("e 1 2".toList)) = false ∧
      startsWithC ['m', 's'] (stripC ("e 1 2".toList)) = false) ∧
    scanStep ⟨[], [], [], []⟩ ("e 1 2".toList) = some ⟨[], [], [], []⟩ :=
  ⟨by decide, scanStep_skips_unrecognized ⟨[], [], [], []⟩ ("e 1 2".toList)
    (by decide) (by decide) (by decide)⟩

/-! ## Claim C1 — merge does not validate topology -/

/-- C1 (counterexample): `dA` and `dB` disagree on `faces`, yet `merge`
returns a state (built from `dA`'s faces) instead of raising — no
`TopologyMismatch` check exists in the code. -/
theorem merge_accepts_topology_mismatch_cex :
    dA.faces ≠ dB.faces ∧
    SimulationState.merge (.state dA) (.state dB) =
      some (.state (mergeData dA dB)) ∧
    (mergeData dA dB).faces = dA.faces := by
  decide

/-- C1 (amended): `merge` performs no topology validation.  For any two
non-empty states whose arrays are stackable (matching node counts,
`node_type` present), it succeeds and copies `faces` and `verts` from the
first input — with no hypothesis relating them to the second input's. -/
theorem merge_no_topology_check (d1 d2 : SimData)
    (nt1 nt2 : List (List NodeType))
    (h1 : d1.node_type = some nt1) (h2 : d2.node_type = some nt2)
    (hw : sameWidth (d1.nodes ++ d2.nodes) = true)
    (hnt : sameWidth (nt1 ++ nt2) = true)
    (hv : d1.nodes_velocity = none) :
    SimulationState.merge (.state d1) (.state d2) =
      some (.state ⟨d1.verts, d1.nodes ++ d2.nodes, some (nt1 ++ nt2),
        d1.faces, none⟩) := by
  simp [SimulationState.merge, vstackQ, hw, h1, h2, hv, hnt]

/-- Witness for `merge_no_topology_check`, applied to the two states of the
counterexample — whose `faces` differ. -/
theorem merge_no_topology_check_witness :
    (dA.node_type = some [[.NORMAL, .NORMAL, .NORMAL]] ∧
      dB.node_type = some [[.NORMAL, .HANDLE, .NORMAL]] ∧
      sameWidth (dA.nodes ++ dB.nodes) = true ∧
      sameWidth ([[NodeType.NORMAL, .NORMAL, .NORMAL]] ++
        [[NodeType.NORMAL, .HANDLE, .NORMAL]]) = true ∧
      dA.nodes_velocity = none) ∧
    SimulationState.merge (.state dA) (.state dB) =
      some (.state ⟨dA.verts, dA.nodes ++ dB.nodes,
        some ([[NodeType.NORMAL, .NORMAL, .NORMAL]] ++
          [[NodeType.NORMAL, .HANDLE, .NORMAL]]), dA.faces, none⟩) :=
  ⟨⟨by decide, by decide, by decide, by decide, by decide⟩,
    merge_no_topology_check dA dB _ _ (by decide) (by decide) (by decide)
      (by decide) (by decide)⟩

/-! ## Claim C8 — optional fields under merge -/

/-- C8 (counterexample): merging two states that lack `node_type` — exactly
what `parse_obj` produces — fails (`AttributeError`), because line 87 of
src/simulation_state.py concatenates `node_type` unconditionally; so merge
can fail because an optional field is absent, and an absent role array is
not "omitted from the result". -/
theorem merge_missing_node_type_cex :
    dP.node_type = none ∧ dQ.node_type = none ∧
    (dP.nodes_velocity.isSome ∧ dQ.nodes_velocity.isSome) ∧
    SimulationState.merge (.state dP) (.state dQ) = none := by
  decide

/-- C8 (amended): `nodes_velocity` behaves as the claim says — stacked when
present on both inputs, omitted when absent from either — but `node_type`
is concatenated unconditionally, and its absence from either input makes
`merge` fail with `AttributeError` rather than omit it. -/
theorem merge_optional_fields :
    (∀ d1 d2 : SimData, d1.node_type = none ∨ d2.node_type = none →
      SimulationState.merge (.state d1) (.state d2) = none) ∧
    (∀ (d1 d2 : SimData) nt1 nt2 v1 v2,
      d1.node_type = some nt1 → d2.node_type = some nt2 →
      d1.nodes_velocity = some v1 → d2.nodes_velocity = some v2 →
      sameWidth (d1.nodes ++ d2.nodes) = true →
      sameWidth (nt1 ++ nt2) = true → sameWidth (v1 ++ v2) = true →
      SimulationState.merge (.state d1) (.state d2) =
        some (.state ⟨d1.verts, d1.nodes ++ d2.nodes, some (nt1 ++ nt2),
          d1.faces, some (v1 ++ v2)⟩)) ∧
    (∀ (d1 d2 : SimData) nt1 nt2,
      d1.node_type = some nt1 → d2.node_type = some nt2 →
      d1.nodes_velocity = none ∨ d2.nodes_velocity = none →
      sameWidth (d1.nodes ++ d2.nodes) = true →
      sameWidth (nt1 ++ nt2) = true →
      SimulationState.merge (.state d1) (.state d2) =
        some (.state ⟨d1.verts, d1.nodes ++ d2.nodes, some (nt1 ++ nt2),
          d1.faces, none⟩)) := by
  refine ⟨?_, ?_, ?_⟩
  · intro d1 d2 h
    simp only [SimulationState.merge]
    cases hv : vstackQ d1.nodes d2.nodes with
    | none => rfl
    | some nodes =>
      rcases h with h | h
      · simp [h]
      · cases hnt : d1.node_type with
        | none => simp
        | some nt1 => simp [h]
  · intro d1 d2 nt1 nt2 v1 v2 h1 h2 hv1 hv2 hw hnt hvv
    simp [SimulationState.merge, vstackQ, hw, h1, h2, hnt, hv1, hv2, hvv]
  · intro d1 d2 nt1 nt2 h1 h2 hv hw hnt
    rcases hv with hv | hv
    · simp [SimulationState.merge, vstackQ, hw, h1, h2, hnt, hv]
    · cases hv1 : d1.nodes_velocity <;>
        simp [SimulationState.merge, vstackQ, hw, h1, h2, hnt, hv, hv1]

/-- Witness for `merge_optional_fields`: the missing-role branch at
`dP`/`dQ` and the both-velocities branch at `dV1`/`dV2`. -/
theorem merge_optional_fields_witness :
    (dP.node_type = none ∧
      SimulationState.merge (.state dP) (.state dQ) = none) ∧
    ((dV1.node_type = some [[.HANDLE, .NORMAL, .NORMAL]] ∧
      dV1.nodes_velocity = some [[(0, 0, 0), (0, 0, 0), (0, 0, 0)]] ∧
      dV2.nodes_velocity = some [[(0, 0, 1), (0, 0, 1), (0, 0, 1)]]) ∧
      SimulationState.merge (.state dV1) (.state dV2) =
        some (.state ⟨dV1.verts, dV1.nodes ++ dV2.nodes,
          some ([[NodeType.HANDLE, .NORMAL, .NORMAL]] ++
            [[NodeType.HANDLE, .NORMAL, .NORMAL]]),
          dV1.faces,
          some ([[((0 : ℚ), (0 : ℚ), (0 : ℚ)), (0, 0, 0), (0, 0, 0)]] ++
            [[((0 : ℚ), (0 : ℚ), (1 : ℚ)), (0, 0, 1), (0, 0, 1)]])⟩)) :=
  ⟨⟨by decide, merge_optional_fields.1 dP dQ (Or.inl (by decide))⟩,
    ⟨⟨by decide, by decide, by decide⟩,
      merge_optional_fields.2.1 dV1 dV2 _ _ _ _ (by decide) (by decide)
        (by decide) (by decide) (by decide) (by decide) (by decide)⟩⟩

/-! ## Claim C5 — merge identity, associativity, concatenation order -/

/-- Rows of a fixed width make `sameWidth` true. -/
theorem sameWidth_of_forall {α : Type} (w : ℕ) (m : List (List α))
    (h : ∀ row ∈ m, row.length = w) : sameWidth m = true := by
  cases m with
  | nil => rfl
  | cons r rs =>
    simp only [sameWidth, List.all_eq_true, decide_eq_true_eq]
    intro x hx
    rw [h x (List.mem_cons_of_mem r hx), h r (List.mem_cons_self r rs)]

/-- `vstackQ` succeeds on uniformly-shaped inputs. -/
theorem vstackQ_of_uniform {α : Type} (w : ℕ) (a b : List (List α))
    (ha : ∀ row ∈ a, row.length = w) (hb : ∀ row ∈ b, row.length = w) :
    vstackQ a b = some (a ++ b) := by
  unfold vstackQ
  rw [sameWidth_of_forall w]
  · rfl
  · intro row hrow
    rcases List.mem_append.mp hrow with h | h
    · exact ha row h
    · exact hb row h

/-- A successful non-empty merge computes `mergeData`. -/
theorem merge_state_eq (w : ℕ) (d1 d2 : SimData)
    (h1 : uniformB w (.state d1) = true)
    (h2 : uniformB w (.state d2) = true) :
    SimulationState.merge (.state d1) (.state d2) =
      some (.state (mergeData d1 d2)) := by
  simp only [uniformB, Bool.and_eq_true, List.all_eq_true,
    decide_eq_true_eq] at h1 h2
  obtain ⟨⟨hn1, hnt1⟩, hv1⟩ := h1
  obtain ⟨⟨hn2, hnt2⟩, hv2⟩ := h2
  cases e1 : d1.node_type with
  | none => rw [e1] at hnt1; simp at hnt1
  | some nt1 =>
  cases e2 : d2.node_type with
  | none => rw [e2] at hnt2; simp at hnt2
  | some nt2 =>
  rw [e1] at hnt1
  rw [e2] at hnt2
  simp only [List.all_eq_true, decide_eq_true_eq] at hnt1 hnt2
  have hnodes := vstackQ_of_uniform w d1.nodes d2.nodes hn1 hn2
  have hnt := vstackQ_of_uniform w nt1 nt2 hnt1 hnt2
  cases ev1 : d1.nodes_velocity with
  | none =>
    simp [SimulationState.merge, hnodes, e1, e2, hnt, ev1, mergeData]
  | some v1 =>
    cases ev2 : d2.nodes_velocity with
    | none =>
      simp [SimulationState.merge, hnodes, e1, e2, hnt, ev1, ev2, mergeData]
    | some v2 =>
      rw [ev1] at hv1
      rw [ev2] at hv2
      simp only [List.all_eq_true, decide_eq_true_eq] at hv1 hv2
      have hv := vstackQ_of_uniform w v1 v2 hv1 hv2
      simp [SimulationState.merge, hnodes, e1, e2, hnt, ev1, ev2, hv, mergeData]

/-- `mergeData` preserves uniform shape. -/
theorem uniformB_mergeData (w : ℕ) (d1 d2 : SimData)
    (h1 : uniformB w (.state d1) = true)
    (h2 : uniformB w (.state d2) = true) :
    uniformB w (.state (mergeData d1 d2)) = true := by
  simp only [uniformB, Bool.and_eq_true, List.all_eq_true,
    decide_eq_true_eq] at h1 h2 ⊢
  obtain ⟨⟨hn1, hnt1⟩, hv1⟩ := h1
  obtain ⟨⟨hn2, hnt2⟩, hv2⟩ := h2
  refine ⟨⟨?_, ?_⟩, ?_⟩
  · intro row hrow
    rcases List.mem_append.mp hrow with h | h
    · exact hn1 row h
    · exact hn2 row h
  · cases e1 : d1.node_type with
    | none => rw [e1] at hnt1; simp at hnt1
    | some nt1 =>
      cases e2 : d2.node_type with
      | none => rw [e2] at hnt2; simp at hnt2
      | some nt2 =>
        rw [e1] at hnt1
        rw [e2] at hnt2
        simp only [List.all_eq_true, decide_eq_true_eq] at hnt1 hnt2
        simp only [mergeData, e1, e2, List.all_eq_true, decide_eq_true_eq]
        intro row hrow
        rcases List.mem_append.mp hrow with h | h
        · exact hnt1 row h
        · exact hnt2 row h
  · cases ev1 : d1.nodes_velocity with
    | none => simp [mergeData, ev1]
    | some v1 =>
      cases ev2 : d2.nodes_velocity with
      | none => simp [mergeData, ev1, ev2]
      | some v2 =>
        rw [ev1] at hv1
        rw [ev2] at hv2
        simp only [List.all_eq_true, decide_eq_true_eq] at hv1 hv2
        simp only [mergeData, ev1, ev2, List.all_eq_true, decide_eq_true_eq]
        intro row hrow
        rcases List.mem_append.mp hrow with h | h
        · exact hv1 row h
        · exact hv2 row h

/-- `mergeData` is associative. -/
theorem mergeData_assoc (d1 d2 d3 : SimData) :
    mergeData (mergeData d1 d2) d3 = mergeData d1 (mergeData d2 d3) := by
  unfold mergeData
  cases d1.node_type <;> cases d2.node_type <;> cases d3.node_type <;>
    cases d1.nodes_velocity <;> cases d2.nodes_velocity <;>
    cases d3.nodes_velocity <;>
    simp [List.append_assoc]

/-- C5: the empty state is a two-sided identity for `merge` (exactly, with
no success condition), and on shape-compatible states `merge` is
associative; for three non-empty states the merged `worldPositions` is the
frame-axis concatenation `nodes₁ ++ nodes₂ ++ nodes₃` in argument order, so
a left fold agrees with any balanced reduction. -/
theorem merge_monoid_laws :
    (∀ S : SimulationState,
      SimulationState.merge .empty S = some S ∧
      SimulationState.merge S .empty = some S) ∧
    (∀ (w : ℕ) (a b c : SimulationState),
      uniformB w a = true → uniformB w b = true → uniformB w c = true →
      ((SimulationState.merge a b).bind
        (fun x => SimulationState.merge x c)) =
      ((SimulationState.merge b c).bind
        (fun y => SimulationState.merge a y))) ∧
    (∀ (w : ℕ) (d1 d2 d3 : SimData),
      uniformB w (.state d1) = true → uniformB w (.state d2) = true →
      uniformB w (.state d3) = true →
      ((SimulationState.merge (.state d1) (.state d2)).bind
        (fun x => SimulationState.merge x (.state d3))) =
        some (.state (mergeData (mergeData d1 d2) d3)) ∧
      (mergeData (mergeData d1 d2) d3).nodes =
        d1.nodes ++ (d2.nodes ++ d3.nodes)) := by
  have hstep : ∀ (w : ℕ) (d1 d2 d3 : SimData),
      uniformB w (.state d1) = true → uniformB w (.state d2) = true →
      uniformB w (.state d3) = true →
      ((SimulationState.merge (.state d1) (.state d2)).bind
        (fun x => SimulationState.merge x (.state d3))) =
        some (.state (mergeData (mergeData d1 d2) d3)) := by
    intro w d1 d2 d3 h1 h2 h3
    rw [merge_state_eq w d1 d2 h1 h2, Option.some_bind,
      merge_state_eq w (mergeData d1 d2) d3 (uniformB_mergeData w d1 d2 h1 h2) h3]
  have hleft : ∀ S : SimulationState,
      SimulationState.merge .empty S = some S := by
    intro S; cases S <;> rfl
  have hright : ∀ S : SimulationState,
      SimulationState.merge S .empty = some S := by
    intro S; cases S <;> rfl
  refine ⟨fun S => ⟨hleft S, hright S⟩, ?_, ?_⟩
  · intro w a b c ha hb hc
    cases a with
    | empty =>
      rw [hleft b, Option.some_bind]
      cases h : SimulationState.merge b c with
      | none => rfl
      | some x => rw [Option.some_bind, hleft x]
    | state d1 =>
      cases b with
      | empty =>
        rw [hright (.state d1), Option.some_bind, hleft c]
        rw [Option.some_bind]
      | state d2 =>
        cases c with
        | empty =>
          rw [hright]
          cases h : SimulationState.merge (SimulationState.state d1)
              (SimulationState.state d2) with
          | none => rw [Option.none_bind, Option.some_bind, h]
          | some x =>
            rw [Option.some_bind, Option.some_bind, hright x, h]
        | state d3 =>
          rw [hstep w d1 d2 d3 ha hb hc, merge_state_eq w d2 d3 hb hc,
            Option.some_bind,
            merge_state_eq w d1 (mergeData d2 d3) ha
              (uniformB_mergeData w d2 d3 hb hc),
            mergeData_assoc]
  · intro w d1 d2 d3 h1 h2 h3
    refine ⟨hstep w d1 d2 d3 h1 h2 h3, ?_⟩
    simp [mergeData, List.append_assoc]

/-- Witness for `merge_monoid_laws`: the identity laws at `.state dV1`, and
associativity plus frame-order concatenation at `dV1`, `dV2`, `dV1`. -/
theorem merge_monoid_laws_witness :
    (SimulationState.merge .empty (.state dV1) = some (.state dV1) ∧
      SimulationState.merge (.state dV1) .empty = some (.state dV1)) ∧
    (uniformB 3 (.state dV1) = true ∧ uniformB 3 (.state dV2) = true) ∧
    ((SimulationState.merge (.state dV1) (.state dV2)).bind
        (fun x => SimulationState.merge x (.state dV1)) =
      some (.state (mergeData (mergeData dV1 dV2) dV1)) ∧
      (mergeData (mergeData dV1 dV2) dV1).nodes =
        dV1.nodes ++ (dV2.nodes ++ dV1.nodes)) :=
  ⟨merge_monoid_laws.1 (.state dV1),
    ⟨by decide, by decide⟩,
    merge_monoid_laws.2.2 3 dV1 dV2 dV1 (by decide) (by decide) (by decide)⟩

/-! ## Claim C10 — `Mesh.load` on slash-separated face lines -/

/-- Destructor for a successful `Option` bind. -/
theorem bind_eq_some_ex {α β : Type} {o : Option α} {f : α → Option β} {b : β}
    (h : o >>= f = some b) : ∃ a, o = some a ∧ f a = some b := by
  cases o with
  | none => simp at h
  | some a => exact ⟨a, rfl, h⟩

/-- A line whose stripped form, when it starts with `f`, contains a slash,
contributes nothing to the face accumulator of `Mesh.load`. -/
theorem loadStep_preserves_faces (acc acc' : List Vec3 × List (ℤ × ℤ × ℤ))
    (l : List Char)
    (hl : startsWithC ['f'] (stripC l) = true → containsC '/' (stripC l) = true)
    (h : loadStep acc l = some acc') : acc'.2 = acc.2 := by
  have key : (if startsWithC ['v'] (stripC l) = true then do
      let d ← matchT3 ['v', ' '] (stripC l)
      let x ← parseFloatC d.1
      let y ← parseFloatC d.2.1
      let z ← parseFloatC d.2.2
      let y ← pure (acc.1 ++ [(x, y, z)], acc.2)
      pure y
    else do
      let y ← pure acc
      pure y) = some acc' → acc'.2 = acc.2 := by
    intro h
    split at h
    · obtain ⟨d, hd, h⟩ := bind_eq_some_ex h
      obtain ⟨x, hx, h⟩ := bind_eq_some_ex h
      obtain ⟨y, hy, h⟩ := bind_eq_some_ex h
      obtain ⟨z, hz, h⟩ := bind_eq_some_ex h
      cases Option.some_inj.mp h
      rfl
    · cases Option.some_inj.mp h
      rfl
  by_cases hf : startsWithC ['f'] (stripC l) = true
  · have hc := hl hf
    simp only [loadStep, hc, Bool.true_eq_false, and_false, if_false] at h
    exact key h
  · simp only [loadStep, hf, Bool.false_eq_true, false_and, if_false] at h
    exact key h

/-- C10: `Mesh.load` recognizes a face only on an `f` line without `'/'`.
On any file whose `f` lines all carry slash-separated dual indices — as
every frame-export face line does — a successful load returns an empty face
array; on the concrete frame export `frameA`, the vertices are still
populated from the `v` lines while `faces` is empty. -/
theorem mesh_load_skips_slashed_faces :
    (∀ file : List (List Char),
      (∀ l ∈ file, startsWithC ['f'] (stripC l) = true →
        containsC '/' (stripC l) = true) →
      ∀ m : Mesh, Mesh.load file = some m → m.faces = []) ∧
    Mesh.load frameA = some ⟨[(0, 0, 0), (1, 0, 0), (0, 1, 0)], []⟩ := by
  constructor
  · have main : ∀ (file : List (List Char))
        (acc acc' : List Vec3 × List (ℤ × ℤ × ℤ)),
        (∀ l ∈ file, startsWithC ['f'] (stripC l) = true →
          containsC '/' (stripC l) = true) →
        file.foldlM loadStep acc = some acc' → acc'.2 = acc.2 := by
      intro file
      induction file with
      | nil =>
        intro acc acc' _ h
        cases Option.some_inj.mp h
        rfl
      | cons l ls ih =>
        intro acc acc' hall h
        rw [List.foldlM_cons] at h
        obtain ⟨a, ha, hrest⟩ := bind_eq_some_ex h
        have h1 : a.2 = acc.2 :=
          loadStep_preserves_faces acc a l
            (hall l (List.mem_cons_self l ls)) ha
        have h2 : acc'.2 = a.2 :=
          ih a acc' (fun x hx => hall x (List.mem_cons_of_mem l hx)) hrest
        rw [h2, h1]
    intro file hall m hm
    unfold Mesh.load at hm
    obtain ⟨acc, hacc, hpure⟩ := bind_eq_some_ex hm
    cases Option.some_inj.mp hpure
    exact main file ([], []) acc hall hacc
  · decide

/-- Witness for `mesh_load_skips_slashed_faces`: the general part applied to
the frame export `frameA` itself, whose sole `f` line carries `'/'`. -/
theorem mesh_load_skips_slashed_faces_witness :
    (∀ l ∈ frameA, startsWithC ['f'] (stripC l) = true →
      containsC '/' (stripC l) = true) ∧
    (Mesh.faces ⟨[(0, 0, 0), (1, 0, 0), (0, 1, 0)], []⟩) = [] :=
  ⟨by decide, mesh_load_skips_slashed_faces.1 frameA (by decide)
    ⟨[(0, 0, 0), (1, 0, 0), (0, 1, 0)], []⟩ (by decide)⟩

/-! ## Claim C2 — inconsistent world/material mappings -/

/-- `List.lookup` at a cons cell, in `if` form. -/
theorem lookup_cons_ite (k k0 v0 : ℤ) (rest : List (ℤ × ℤ)) :
    List.lookup k ((k0, v0) :: rest) =
      if k = k0 then some v0 else List.lookup k rest := by
  by_cases h : k = k0
  · have hb : (k == k0) = true := beq_iff_eq.mpr h
    simp [List.lookup_cons, hb, h]
  · have hb : (k == k0) = false := beq_eq_false_iff_ne.mpr h
    simp [List.lookup_cons, hb, h]

/-- `List.lookup` after a Python dict assignment: the assigned key now maps
to the new value, every other key is unchanged. -/
theorem lookup_dictInsert (k v k' : ℤ) (m : List (ℤ × ℤ)) :
    List.lookup k' (dictInsert k v m) =
      if k' = k then some v else List.lookup k' m := by
  induction m with
  | nil =>
    by_cases h : k' = k <;> simp [dictInsert, lookup_cons_ite, h]
  | cons kv0 rest ih =>
    obtain ⟨k0, v0⟩ := kv0
    by_cases hk : k0 = k
    · subst hk
      by_cases h' : k' = k0 <;>
        simp [dictInsert, lookup_cons_ite, h']
    · by_cases h' : k' = k0
      · rw [h']
        simp [dictInsert, hk, lookup_cons_ite]
      · simp [dictInsert, hk, lookup_cons_ite, h', ih]

/-- `List.lookup` distributes over append, preferring the left list. -/
theorem lookup_append (k : ℤ) (l1 l2 : List (ℤ × ℤ)) :
    List.lookup k (l1 ++ l2) =
      match List.lookup k l1 with
      | some v => some v
      | none => List.lookup k l2 := by
  induction l1 with
  | nil => rfl
  | cons kv rest ih =>
    obtain ⟨k0, v0⟩ := kv
    by_cases h : k = k0
    · simp [lookup_cons_ite, h]
    · simp [lookup_cons_ite, h, ih]

/-- Folding dict assignments: the final binding of a key is its last
assignment, falling back to the initial dict. -/
theorem lookup_foldl_dictInsert (ps : List (ℤ × ℤ)) (m : List (ℤ × ℤ))
    (k : ℤ) :
    List.lookup k (ps.foldl (fun acc kv => dictInsert kv.1 kv.2 acc) m) =
      match lookupLast k ps with
      | some v => some v
      | none => List.lookup k m := by
  induction ps generalizing m with
  | nil => rfl
  | cons kv rest ih =>
    obtain ⟨k0, v0⟩ := kv
    rw [List.foldl_cons, ih]
    unfold lookupLast
    rw [List.reverse_cons, lookup_append, lookup_dictInsert]
    cases List.lookup k rest.reverse with
    | none =>
      by_cases h : k = k0 <;> simp [lookup_cons_ite, h]
    | some v => rfl

/-- A successful `scanStep` extends `world_to_mesh` by exactly the line's
corner-pair assignments, in order. -/
theorem scanStep_world_to_mesh (st st' : ScanState) (l : List Char)
    (h : scanStep st l = some st') :
    st'.world_to_mesh = (lineCornerPairs l).foldl
      (fun acc kv => dictInsert kv.1 kv.2 acc) st.world_to_mesh := by
  by_cases hv : startsWithC ['v'] (stripC l) = true
  · simp only [scanStep, hv, if_true] at h
    obtain ⟨d, hd, h⟩ := bind_eq_some_ex h
    obtain ⟨x, hx, h⟩ := bind_eq_some_ex h
    obtain ⟨y, hy, h⟩ := bind_eq_some_ex h
    obtain ⟨z, hz, h⟩ := bind_eq_some_ex h
    cases Option.some_inj.mp h
    simp [lineCornerPairs, hv]
  · by_cases hf : startsWithC ['f'] (stripC l) = true
    · simp only [scanStep, hv, Bool.false_eq_true, if_false, hf, if_true] at h
      obtain ⟨⟨n1, m1, n2, m2, n3, m3⟩, hT6, h⟩ := bind_eq_some_ex h
      obtain ⟨w1, hw1, h⟩ := bind_eq_some_ex h
      obtain ⟨t1, ht1, h⟩ := bind_eq_some_ex h
      obtain ⟨w2, hw2, h⟩ := bind_eq_some_ex h
      obtain ⟨t2, ht2, h⟩ := bind_eq_some_ex h
      obtain ⟨w3, hw3, h⟩ := bind_eq_some_ex h
      obtain ⟨t3, ht3, h⟩ := bind_eq_some_ex h
      obtain ⟨ms, hms, h⟩ := bind_eq_some_ex h
      cases ms with
      | nil => simp at h
      | cons mf1 ms1 =>
      cases ms1 with
      | nil => simp at h
      | cons mf2 ms2 =>
      cases ms2 with
      | nil => simp at h
      | cons mf3 ms3 =>
      cases Option.some_inj.mp h
      have hw1a : parseIntC n1 = some w1 := hw1
      have hw2a : parseIntC n2 = some w2 := hw2
      have hw3a : parseIntC n3 = some w3 := hw3
      simp only [lineCornerPairs, hv, hf, Bool.false_eq_true, if_false,
        if_true, hT6, hw1a, hw2a, hw3a, hms, List.foldl_cons, List.foldl_nil]
    · by_cases hm : startsWithC ['m', 's'] (stripC l) = true
      · simp only [scanStep, hv, Bool.false_eq_true, if_false, hf, hm,
          if_true] at h
        obtain ⟨d, hd, h⟩ := bind_eq_some_ex h
        obtain ⟨x, hx, h⟩ := bind_eq_some_ex h
        obtain ⟨y, hy, h⟩ := bind_eq_some_ex h
        obtain ⟨z, hz, h⟩ := bind_eq_some_ex h
        cases Option.some_inj.mp h
        simp [lineCornerPairs, hv, hf]
      · rw [scanStep_skips_unrecognized st l (by simpa using hv)
          (by simpa using hf) (by simpa using hm)] at h
        cases Option.some_inj.mp h
        simp [lineCornerPairs, hv, hf]

/-- The dict built by a whole-file scan is the fold of all corner-pair
assignments over the initial dict. -/
theorem scan_world_to_mesh (file : List (List Char)) :
    ∀ st st', file.foldlM scanStep st = some st' →
      st'.world_to_mesh = (fileCornerPairs file).foldl
        (fun acc kv => dictInsert kv.1 kv.2 acc) st.world_to_mesh := by
  induction file with
  | nil =>
    intro st st' h
    cases Option.some_inj.mp h
    rfl
  | cons l ls ih =>
    intro st st' h
    rw [List.foldlM_cons] at h
    obtain ⟨a, ha, hrest⟩ := bind_eq_some_ex h
    rw [ih a st' hrest, scanStep_world_to_mesh st a l ha]
    simp [fileCornerPairs, List.foldl_append]

/-- C2 (amended): `parse_obj` does not require the slash-separated material
ids of a repeated world node id to agree.  The binding recorded for a world
id is the one from its last occurrence in file order (Python dict overwrite
semantics), and parsing succeeds: on `frame2`, whose two faces map world
node 0 to material vertex 0 and then to material vertex 3, the state is
produced with `restVertices[0]` taken from the fourth `ms` row. -/
theorem parse_obj_last_write_wins :
    (∀ (file : List (List Char)) (st : ScanState),
      file.foldlM scanStep ⟨[], [], [], []⟩ = some st →
      ∀ k, List.lookup k st.world_to_mesh =
        lookupLast k (fileCornerPairs file)) ∧
    (SimulationState.parse_obj frame2 =
      some (.state ⟨[(1, 1, 0), (1, 0, 0), (0, 1, 0)],
        [[(0, 0, 0), (1, 0, 0), (0, 1, 0), (1, 1, 0)]], none,
        [(0, 1, 2), (0, 1, 2)], none⟩) ∧
      lookupLast 0 (fileCornerPairs frame2) = some 3) := by
  refine ⟨?_, by decide, by decide⟩
  intro file st h k
  rw [scan_world_to_mesh file ⟨[], [], [], []⟩ st h, lookup_foldl_dictInsert]
  cases lookupLast k (fileCornerPairs file) <;> rfl

/-- Witness for `parse_obj_last_write_wins`: the general last-write-wins law
applied to the scan of `frame2` at world id `0`. -/
theorem parse_obj_last_write_wins_witness :
    (frame2.foldlM scanStep ⟨[], [], [], []⟩ =
      some ⟨[(0, 1, 2), (0, 1, 2)],
        [(0, 0, 0), (1, 0, 0), (0, 1, 0), (1, 1, 0)],
        [(0, 0, 0), (1, 0, 0), (0, 1, 0), (1, 1, 0)],
        [(0, 3), (1, 1), (2, 2)]⟩) ∧
    List.lookup 0 ([((0 : ℤ), (3 : ℤ)), (1, 1), (2, 2)]) =
      lookupLast 0 (fileCornerPairs frame2) :=
  ⟨by decide,
    parse_obj_last_write_wins.1 frame2
      ⟨[(0, 1, 2), (0, 1, 2)],
        [(0, 0, 0), (1, 0, 0), (0, 1, 0), (1, 1, 0)],
        [(0, 0, 0), (1, 0, 0), (0, 1, 0), (1, 1, 0)],
        [(0, 3), (1, 1), (2, 2)]⟩ (by decide) 0⟩

/-- C2 (counterexample): in `frame2` the world node id 0 appears on two `f`
lines with disagreeing material ids (0, then 3), yet `parse_obj` succeeds
instead of failing with a malformed-export error. -/
theorem parse_obj_inconsistent_mapping_cex :
    lineCornerPairs ("f 1/1 2/2 3/3".toList) = [(0, 0), (1, 1), (2, 2)] ∧
    lineCornerPairs ("f 1/4 2/2 3/3".toList) = [(0, 3), (1, 1), (2, 2)] ∧
    ("f 1/1 2/2 3/3".toList) ∈ frame2 ∧ ("f 1/4 2/2 3/3".toList) ∈ frame2 ∧
    (SimulationState.parse_obj frame2).isSome = true := by
  decide

/-! ## Claim C9 — one `restVertices` row per face-referenced node -/

/-- A successful `mapM` preserves length. -/
theorem length_of_mapM {α β : Type} (f : α → Option β) :
    ∀ (l : List α) (l' : List β), l.mapM f = some l' → l'.length = l.length := by
  intro l
  induction l with
  | nil =>
    intro l' h
    cases Option.some_inj.mp h
    rfl
  | cons x xs ih =>
    intro l' h
    rw [List.mapM_cons] at h
    obtain ⟨b, hb, h⟩ := bind_eq_some_ex h
    obtain ⟨bs, hbs, h⟩ := bind_eq_some_ex h
    cases Option.some_inj.mp h
    simp [ih bs hbs]

/-- Sorted insertion adds one element. -/
theorem length_insertByKey (kv : ℤ × ℤ) (m : List (ℤ × ℤ)) :
    (insertByKey kv m).length = m.length + 1 := by
  induction m with
  | nil => rfl
  | cons kv0 rest ih =>
    by_cases h : kv.1 ≤ kv0.1 <;> simp [insertByKey, h, ih]

/-- Sorting by key preserves length. -/
theorem length_sortByKey (m : List (ℤ × ℤ)) :
    (sortByKey m).length = m.length := by
  induction m with
  | nil => rfl
  | cons kv rest ih => simp [sortByKey, length_insertByKey, ih]

/-- Key membership after a dict assignment. -/
theorem mem_keys_dictInsert (k v k' : ℤ) (m : List (ℤ × ℤ)) :
    k' ∈ (dictInsert k v m).map Prod.fst ↔
      k' = k ∨ k' ∈ m.map Prod.fst := by
  induction m with
  | nil => simp [dictInsert]
  | cons kv0 rest ih =>
    obtain ⟨k0, v0⟩ := kv0
    by_cases h : k0 = k
    · subst h
      simp [dictInsert]
    · simp only [dictInsert, if_neg h, List.map_cons, List.mem_cons, ih]
      tauto

/-- Dict assignment preserves distinctness of the keys. -/
theorem nodup_keys_dictInsert (k v : ℤ) (m : List (ℤ × ℤ))
    (h : (m.map Prod.fst).Nodup) :
    ((dictInsert k v m).map Prod.fst).Nodup := by
  induction m with
  | nil => simp [dictInsert]
  | cons kv0 rest ih =>
    obtain ⟨k0, v0⟩ := kv0
    simp only [List.map_cons, List.nodup_cons] at h
    obtain ⟨hk0, hrest⟩ := h
    by_cases hh : k0 = k
    · subst hh
      have hd : dictInsert k0 v ((k0, v0) :: rest) = (k0, v) :: rest := by
        rw [dictInsert, if_pos rfl]
      rw [hd, List.map_cons, List.nodup_cons]
      exact ⟨hk0, hrest⟩
    · simp only [dictInsert, hh, if_false, List.map_cons, List.nodup_cons]
      refine ⟨?_, ih hrest⟩
      rw [mem_keys_dictInsert]
      rintro (rfl | hmem)
      · exact hh rfl
      · exact hk0 hmem

/-- Folded dict assignments: distinct keys, and the key set is the set of
assigned keys together with the initial keys. -/
theorem foldl_dictInsert_facts (ps : List (ℤ × ℤ)) :
    ∀ m : List (ℤ × ℤ), (m.map Prod.fst).Nodup →
      (((ps.foldl (fun acc kv => dictInsert kv.1 kv.2 acc) m).map
        Prod.fst).Nodup ∧
      ∀ k, k ∈ (ps.foldl (fun acc kv => dictInsert kv.1 kv.2 acc) m).map
          Prod.fst ↔
        k ∈ ps.map Prod.fst ∨ k ∈ m.map Prod.fst) := by
  induction ps with
  | nil =>
    intro m hm
    exact ⟨hm, fun k => by simp⟩
  | cons kv rest ih =>
    intro m hm
    obtain ⟨k0, v0⟩ := kv
    rw [List.foldl_cons]
    obtain ⟨hnd, hmem⟩ := ih (dictInsert k0 v0 m) (nodup_keys_dictInsert k0 v0 m hm)
    refine ⟨hnd, fun k => ?_⟩
    rw [hmem k, mem_keys_dictInsert]
    simp only [List.map_cons, List.mem_cons]
    tauto

/-- The dict built from the empty dict has exactly one entry per distinct
assigned key. -/
theorem length_foldl_dictInsert_dedup (ps : List (ℤ × ℤ)) :
    (ps.foldl (fun acc kv => dictInsert kv.1 kv.2 acc) []).length =
      (ps.map Prod.fst).dedup.length := by
  obtain ⟨hnd, hmem⟩ := foldl_dictInsert_facts ps [] (by simp)
  have hperm : List.Perm
      ((ps.foldl (fun acc kv => dictInsert kv.1 kv.2 acc) []).map Prod.fst)
      ((ps.map Prod.fst).dedup) := by
    rw [List.perm_ext_iff_of_nodup hnd (List.nodup_dedup _)]
    intro a
    rw [hmem a, List.mem_dedup]
    simp
  have := hperm.length_eq
  rwa [List.length_map] at this

/-- C9: `restVertices` has exactly one row per distinct world node id
appearing on an `f` line — not one per `v` line; on `frame9`, whose fourth
node is declared by a `v` line but referenced by no face, parsing succeeds
and returns three rest vertices against four world nodes. -/
theorem parse_obj_restVertices_count :
    (∀ (file : List (List Char)) (d : SimData),
      SimulationState.parse_obj file = some (.state d) →
      d.verts.length = ((fileCornerPairs file).map Prod.fst).dedup.length) ∧
    (SimulationState.parse_obj frame9 =
      some (.state ⟨[(0, 0, 0), (1, 0, 0), (0, 1, 0)],
        [[(0, 0, 0), (1, 0, 0), (0, 1, 0), (1, 1, 0)]], none,
        [(0, 1, 2)], none⟩) ∧
      ([((0 : ℚ), (0 : ℚ), (0 : ℚ)), (1, 0, 0), (0, 1, 0)].length = 3 ∧
        [[((0 : ℚ), (0 : ℚ), (0 : ℚ)), (1, 0, 0), (0, 1, 0),
          (1, 1, 0)]].map List.length = [4])) := by
  refine ⟨?_, by decide, by decide, by decide⟩
  intro file d h
  unfold SimulationState.parse_obj at h
  obtain ⟨st, hst, h⟩ := bind_eq_some_ex h
  by_cases he : st.world_to_mesh.isEmpty = true
  · simp [he] at h
  · simp only [he, Bool.false_eq_true, if_false] at h
    obtain ⟨verts, hverts, h⟩ := bind_eq_some_ex h
    have hd := Option.some_inj.mp h
    cases hd
    have h1 : verts.length = (sortByKey st.world_to_mesh).length :=
      length_of_mapM _ _ _ hverts
    rw [h1, length_sortByKey,
      scan_world_to_mesh file ⟨[], [], [], []⟩ st hst,
      length_foldl_dictInsert_dedup]

/-- Witness for `parse_obj_restVertices_count`: the general counting law at
`frame9` (three distinct referenced world ids, four declared nodes). -/
theorem parse_obj_restVertices_count_witness :
    (SimulationState.parse_obj frame9 =
      some (.state ⟨[(0, 0, 0), (1, 0, 0), (0, 1, 0)],
        [[(0, 0, 0), (1, 0, 0), (0, 1, 0), (1, 1, 0)]], none,
        [(0, 1, 2)], none⟩)) ∧
    (SimData.verts ⟨[(0, 0, 0), (1, 0, 0), (0, 1, 0)],
        [[(0, 0, 0), (1, 0, 0), (0, 1, 0), (1, 1, 0)]], none,
        [(0, 1, 2)], none⟩).length =
      ((fileCornerPairs frame9).map Prod.fst).dedup.length :=
  ⟨by decide,
    parse_obj_restVertices_count.1 frame9
      ⟨[(0, 0, 0), (1, 0, 0), (0, 1, 0)],
        [[(0, 0, 0), (1, 0, 0), (0, 1, 0), (1, 1, 0)]], none,
        [(0, 1, 2)], none⟩ (by decide)⟩

/-! ## Claims C3 and C4 — Poisson-disk spacing and bounds -/

/-- The exact ceiling is below `q + 1`. -/
theorem ceilQ_lt_add_one (q : ℚ) : (ceilQ q : ℚ) < q + 1 := by
  have hd : (0 : ℤ) < (q.den : ℤ) := by exact_mod_cast q.den_pos
  have hkey : ceilQ q * (q.den : ℤ) ≤ q.num + (q.den : ℤ) - 1 :=
    Int.ediv_mul_le _ (by omega)
  have h2 : ceilQ q * (q.den : ℤ) < q.num + (q.den : ℤ) := by omega
  have h3 : (ceilQ q : ℚ) * ((q.den : ℤ) : ℚ) <
      ((q.num : ℤ) : ℚ) + ((q.den : ℤ) : ℚ) := by exact_mod_cast h2
  have hdq : (0 : ℚ) < ((q.den : ℤ) : ℚ) := by exact_mod_cast hd
  have h4 : (ceilQ q : ℚ) < (((q.num : ℤ) : ℚ) + ((q.den : ℤ) : ℚ)) /
      ((q.den : ℤ) : ℚ) := (lt_div_iff₀ hdq).mpr h3
  have h5 : (((q.num : ℤ) : ℚ) + ((q.den : ℤ) : ℚ)) / ((q.den : ℤ) : ℚ) =
      q + 1 := by
    rw [add_div, div_self (ne_of_gt hdq)]
    congr 1
    push_cast
    exact Rat.num_div_den q
  rw [h5] at h4
  exact h4

/-- Values of `np.arange 0 (s + r) r` lie in `[0, s + r)`. -/
theorem mem_arangeQ_bounds (s r a : ℚ) (hr : 0 < r)
    (ha : a ∈ arangeQ 0 (s + r) r) : 0 ≤ a ∧ a < s + r := by
  unfold arangeQ at ha
  obtain ⟨i, hi, rfl⟩ := List.mem_map.mp ha
  rw [List.mem_range] at hi
  constructor
  · have : (0 : ℚ) ≤ (i : ℚ) * r := mul_nonneg (Nat.cast_nonneg i) (le_of_lt hr)
    simpa using this
  · have hic : (i : ℤ) < ceilQ ((s + r - 0) / r) := Int.lt_toNat.mp hi
    have h1 : (i : ℚ) ≤ (ceilQ ((s + r - 0) / r) : ℚ) - 1 := by
      have hle : (i : ℤ) ≤ ceilQ ((s + r - 0) / r) - 1 := by omega
      have hcast : ((i : ℤ) : ℚ) ≤ ((ceilQ ((s + r - 0) / r) - 1 : ℤ) : ℚ) := by
        exact_mod_cast hle
      push_cast at hcast
      linarith
    have h2 : (ceilQ ((s + r - 0) / r) : ℚ) - 1 < (s + r - 0) / r := by
      have := ceilQ_lt_add_one ((s + r - 0) / r)
      linarith
    have h3 : (i : ℚ) < (s + r) / r := by
      rw [sub_zero] at h1 h2
      linarith
    have h4 : (i : ℚ) * r < ((s + r) / r) * r :=
      mul_lt_mul_of_pos_right h3 hr
    rw [div_mul_cancel₀ _ (ne_of_gt hr)] at h4
    linarith

/-- Membership in an ordered dedup insertion. -/
theorem mem_insertRow (x z : Vec2) (m : List Vec2) :
    z ∈ insertRow x m ↔ z = x ∨ z ∈ m := by
  induction m with
  | nil => simp [insertRow]
  | cons y ys ih =>
    by_cases h1 : x = y
    · subst h1
      have hd : insertRow x (x :: ys) = x :: ys := by simp [insertRow]
      rw [hd]
      simp only [List.mem_cons]
      tauto
    · by_cases h2 : x.1 < y.1 ∨ (x.1 = y.1 ∧ x.2 < y.2)
      · have hd : insertRow x (y :: ys) = x :: y :: ys := by
          simp [insertRow, h1, h2]
        rw [hd]
        simp only [List.mem_cons]
      · have hd : insertRow x (y :: ys) = y :: insertRow x ys := by
          simp [insertRow, h1, h2]
        rw [hd]
        simp only [List.mem_cons, ih]
        tauto

/-- `np.unique` keeps exactly the input rows. -/
theorem mem_uniqueRows (z : Vec2) (rows : List Vec2) :
    z ∈ uniqueRows rows ↔ z ∈ rows := by
  induction rows with
  | nil => simp [uniqueRows]
  | cons y ys ih =>
    show z ∈ insertRow y (uniqueRows ys) ↔ _
    rw [mem_insertRow, ih, List.mem_cons]

/-- Every seed vertex lies in `[0, w + r) × [0, h + r)`: border points can
overshoot an edge by less than `r`, the interior seed lies inside the open
rectangle. -/
theorem poissonInit_bounds (size : Vec2) (r : ℚ) (u : Vec2)
    (hw : 0 < size.1) (hh : 0 < size.2) (hr : 0 < r)
    (hu1 : 0 ≤ u.1) (hu1' : u.1 < 1) (hu2 : 0 ≤ u.2) (hu2' : u.2 < 1) :
    ∀ p ∈ poissonInit size r u,
      0 ≤ p.1 ∧ p.1 < size.1 + r ∧ 0 ≤ p.2 ∧ p.2 < size.2 + r := by
  intro p hp
  simp only [poissonInit, List.mem_append, List.mem_singleton] at hp
  rcases hp with hp | hp
  · rw [mem_uniqueRows] at hp
    simp only [List.mem_append, List.mem_map] at hp
    rcases hp with ((⟨a, ha, rfl⟩ | ⟨a, ha, rfl⟩) | ⟨a, ha, rfl⟩) | ⟨a, ha, rfl⟩
    · obtain ⟨h1, h2⟩ := mem_arangeQ_bounds size.1 r a hr ha
      exact ⟨h1, h2, le_refl 0, by show (0 : ℚ) < size.2 + r; linarith⟩
    · obtain ⟨h1, h2⟩ := mem_arangeQ_bounds size.1 r a hr ha
      exact ⟨h1, h2, le_of_lt hh, by show size.2 < size.2 + r; linarith⟩
    · obtain ⟨h1, h2⟩ := mem_arangeQ_bounds size.2 r a hr ha
      exact ⟨le_refl 0, by show (0 : ℚ) < size.1 + r; linarith, h1, h2⟩
    · obtain ⟨h1, h2⟩ := mem_arangeQ_bounds size.2 r a hr ha
      exact ⟨le_of_lt hw, by show size.1 < size.1 + r; linarith, h1, h2⟩
  · subst hp
    refine ⟨mul_nonneg hu1 (le_of_lt hw), ?_, mul_nonneg hu2 (le_of_lt hh), ?_⟩
    · show u.1 * size.1 < size.1 + r
      have : u.1 * size.1 < 1 * size.1 := mul_lt_mul_of_pos_right hu1' hw
      linarith
    · show u.2 * size.2 < size.2 + r
      have : u.2 * size.2 < 1 * size.2 := mul_lt_mul_of_pos_right hu2' hh
      linarith

/-- The inner candidate loop only appends points that pass the bounds check
and the spacing check against all current vertices. -/
theorem attemptFold_ext (size : Vec2) (r : ℚ) (p : Vec2) :
    ∀ (draws : List Draw) (vs act : List Vec2) (b : Bool),
      ∃ ext, (draws.foldl (attemptStep size r p) (vs, act, b)).1 = vs ++ ext ∧
        acceptedExt size r vs ext = true := by
  intro draws
  induction draws with
  | nil =>
    intro vs act b
    exact ⟨[], by simp, rfl⟩
  | cons d ds ih =>
    intro vs act b
    rw [List.foldl_cons]
    by_cases hob : (p.1 + d.radius * d.c < 0 ∨ p.1 + d.radius * d.c > size.1 ∨
        p.2 + d.radius * d.s < 0 ∨ p.2 + d.radius * d.s > size.2)
    · have hs : attemptStep size r p (vs, act, b) d = (vs, act, b) := by
        simp [attemptStep, hob]
      rw [hs]
      exact ih vs act b
    · by_cases hacc : vs.all (fun q => decide (r ^ 2 <
          sqDist2 (p.1 + d.radius * d.c, p.2 + d.radius * d.s) q)) = true
      · have hs : attemptStep size r p (vs, act, b) d =
            (vs ++ [(p.1 + d.radius * d.c, p.2 + d.radius * d.s)],
             act ++ [(p.1 + d.radius * d.c, p.2 + d.radius * d.s)], true) := by
          simp [attemptStep, hob, hacc]
        rw [hs]
        obtain ⟨ext, h1, h2⟩ :=
          ih (vs ++ [(p.1 + d.radius * d.c, p.2 + d.radius * d.s)])
            (act ++ [(p.1 + d.radius * d.c, p.2 + d.radius * d.s)]) true
        refine ⟨(p.1 + d.radius * d.c, p.2 + d.radius * d.s) :: ext, ?_, ?_⟩
        · rw [h1, List.append_assoc, List.singleton_append]
        · show (inRectB size (p.1 + d.radius * d.c, p.2 + d.radius * d.s) &&
            vs.all (fun y => decide (r ^ 2 <
              sqDist2 (p.1 + d.radius * d.c, p.2 + d.radius * d.s) y)) &&
            acceptedExt size r
              (vs ++ [(p.1 + d.radius * d.c, p.2 + d.radius * d.s)]) ext) = true
          push_neg at hob
          obtain ⟨hx0, hx1, hy0, hy1⟩ := hob
          have hin : inRectB size (p.1 + d.radius * d.c,
              p.2 + d.radius * d.s) = true := by
            simp only [inRectB, Bool.and_eq_true, decide_eq_true_eq]
            exact ⟨⟨⟨le_of_not_lt (by simpa using hx0), by simpa using hx1⟩,
              le_of_not_lt (by simpa using hy0)⟩, by simpa using hy1⟩
          rw [hin, hacc, h2]
          rfl
      · have hs : attemptStep size r p (vs, act, b) d = (vs, act, b) := by
          simp only [attemptStep]
          rw [if_neg hob, if_neg]
          simpa using hacc
        rw [hs]
        exact ih vs act b

/-- `acceptedExt` splits over an appended extension. -/
theorem acceptedExt_append (size : Vec2) (r : ℚ) :
    ∀ (e1 e2 base : List Vec2),
      acceptedExt size r base (e1 ++ e2) =
        (acceptedExt size r base e1 &&
          acceptedExt size r (base ++ e1) e2) := by
  intro e1
  induction e1 with
  | nil =>
    intro e2 base
    simp [acceptedExt]
  | cons x e1 ih =>
    intro e2 base
    show (inRectB size x && base.all _ &&
        acceptedExt size r (base ++ [x]) (e1 ++ e2)) = _
    rw [ih e2 (base ++ [x])]
    show _ = (inRectB size x && base.all _ &&
        acceptedExt size r (base ++ [x]) e1 &&
        acceptedExt size r (base ++ x :: e1) e2)
    rw [← List.append_cons]
    simp [Bool.and_assoc]

/-- The sampling loop only ever appends accepted candidates to the vertex
list. -/
theorem poissonLoop_ext (size : Vec2) (r : ℚ) (k : ℕ) :
    ∀ (rounds : List Round) (vs act V : List Vec2),
      poissonLoop size r k rounds vs act = some V →
      ∃ ext, V = vs ++ ext ∧ acceptedExt size r vs ext = true := by
  intro rounds
  induction rounds with
  | nil =>
    intro vs act V h
    unfold poissonLoop at h
    by_cases he : act.isEmpty = true
    · rw [if_pos he] at h
      exact ⟨[], by rw [← Option.some_inj.mp h]; simp, rfl⟩
    · rw [if_neg he] at h
      cases h
  | cons rd rest ih =>
    intro vs act V h
    unfold poissonLoop at h
    by_cases he : act.isEmpty = true
    · rw [if_pos he] at h
      exact ⟨[], by rw [← Option.some_inj.mp h]; simp, rfl⟩
    · rw [if_neg he] at h
      obtain ⟨ext0, h01, h02⟩ := attemptFold_ext size r
        (act.getD (rd.pick % act.length) (0, 0)) (rd.draws.take k) vs act false
      have hrs : (roundStep size r k rd vs act).1 = vs ++ ext0 := h01
      obtain ⟨ext1, h11, h12⟩ := ih (roundStep size r k rd vs act).1
        (roundStep size r k rd vs act).2 V h
      rw [hrs] at h11 h12
      refine ⟨ext0 ++ ext1, ?_, ?_⟩
      · rw [h11, List.append_assoc]
      · rw [acceptedExt_append, h02, h12]
        rfl

/-- Accepted extensions lie inside the rectangle. -/
theorem acceptedExt_inRect (size : Vec2) (r : ℚ) :
    ∀ (ext base : List Vec2), acceptedExt size r base ext = true →
      ext.all (inRectB size) = true := by
  intro ext
  induction ext with
  | nil => intro base _; rfl
  | cons x rest ih =>
    intro base h
    have h' : (inRectB size x && base.all
        (fun y => decide (r ^ 2 < sqDist2 x y)) &&
        acceptedExt size r (base ++ [x]) rest) = true := h
    simp only [Bool.and_eq_true] at h'
    show (inRectB size x && rest.all (inRectB size)) = true
    simp only [Bool.and_eq_true]
    exact ⟨h'.1.1, ih (base ++ [x]) h'.2⟩

/-- C3 (amended): every candidate the sampling loop accepts is strictly
farther than `r` from every vertex present at the moment of acceptance — in
particular all pairs of loop-accepted points are more than `r` apart, and
each accepted point is more than `r` from every seed.  (No such guarantee
relates the seed vertices to each other, per the counterexample.) -/
theorem poisson_spacing_accepted (size : Vec2) (res k : ℕ) (u : Vec2)
    (rounds : List Round) (V : List Vec3)
    (h : Mesh.poisson_plane size res k u rounds = some V) :
    ∃ ext : List Vec2,
      V = ((poissonInit size (poissonR size res) u) ++ ext).map liftZ ∧
      acceptedExt size (poissonR size res)
        (poissonInit size (poissonR size res) u) ext = true := by
  unfold Mesh.poisson_plane at h
  rw [Option.map_eq_some'] at h
  obtain ⟨V2, hl, rfl⟩ := h
  obtain ⟨ext, h1, h2⟩ := poissonLoop_ext size (poissonR size res) k rounds
    (poissonInit size (poissonR size res) u)
    [(u.1 * size.1, u.2 * size.2)] V2 hl
  exact ⟨ext, by rw [h1], h2⟩

/-- C3 (counterexample): with spacing `r = 1/4` on the unit square, the run
whose interior seed is `(1/8, 1/8)` (unit draw `(1/8, 1/8)`) and whose
candidates are all drawn at angle `π` with radius `r` terminates, and its
mesh contains the border seed `(0,0)` and the interior seed at squared
distance `1/32 < r² = 1/16` — closer than the claimed minimum spacing.  The
rejecting draws are legitimate: `(-1, 0)` is on the unit circle and the
radius lies in `[r, 2r]`. -/
theorem poisson_spacing_cex :
    Mesh.poisson_plane (1, 1) 4 3 (1/8, 1/8) cexRounds =
      some ((poissonInit (1, 1) (1/4) (1/8, 1/8)).map liftZ) ∧
    ((0 : ℚ), (0 : ℚ), (0 : ℚ)) ∈ (poissonInit (1, 1) (1/4) (1/8, 1/8)).map liftZ ∧
    ((1 : ℚ)/8, (1 : ℚ)/8, (0 : ℚ)) ∈
      (poissonInit (1, 1) (1/4) (1/8, 1/8)).map liftZ ∧
    (((0 : ℚ), (0 : ℚ)) ≠ ((1 : ℚ)/8, (1 : ℚ)/8)) ∧
    sqDist2 (0, 0) (1/8, 1/8) < (poissonR (1, 1) 4) ^ 2 ∧
    (((-1 : ℚ)) ^ 2 + (0 : ℚ) ^ 2 = 1 ∧
      poissonR (1, 1) 4 ≤ 1/4 ∧ (1/4 : ℚ) ≤ 2 * poissonR (1, 1) 4) := by
  decide

/-- Witness for `poisson_spacing_accepted`: the `wRounds` run on the unit
square accepts the candidate `(3/4, 3/8)` and terminates. -/
theorem poisson_spacing_accepted_witness :
    (Mesh.poisson_plane (1, 1) 4 1 (3/8, 3/8) wRounds =
      some ((poissonInit (1, 1) (poissonR (1, 1) 4) (3/8, 3/8) ++
        [((3 : ℚ)/4, (3 : ℚ)/8)]).map liftZ)) ∧
    (∃ ext : List Vec2,
      ((poissonInit (1, 1) (poissonR (1, 1) 4) (3/8, 3/8) ++
        [((3 : ℚ)/4, (3 : ℚ)/8)]).map liftZ) =
        ((poissonInit (1, 1) (poissonR (1, 1) 4) (3/8, 3/8)) ++ ext).map liftZ ∧
      acceptedExt (1, 1) (poissonR (1, 1) 4)
        (poissonInit (1, 1) (poissonR (1, 1) 4) (3/8, 3/8)) ext = true) :=
  ⟨by decide, poisson_spacing_accepted (1, 1) 4 1 (3/8, 3/8) wRounds _
    (by decide)⟩

/-- C4 (amended): with positive sizes, positive resolution and unit draws in
`[0, 1)`, every vertex of a completed run lies in
`[0, w + r) × [0, h + r) × {0}`; every vertex the loop accepted lies inside
`[0, w] × [0, h]`; the seed vertices may overshoot an edge by less than `r`
(they do exactly when `r` does not divide the side, per the
counterexample). -/
theorem poisson_bounds_amended (size : Vec2) (res k : ℕ) (u : Vec2)
    (rounds : List Round) (V : List Vec3)
    (hw : 0 < size.1) (hh : 0 < size.2) (hres : 0 < res)
    (hu1 : 0 ≤ u.1) (hu1' : u.1 < 1) (hu2 : 0 ≤ u.2) (hu2' : u.2 < 1)
    (h : Mesh.poisson_plane size res k u rounds = some V) :
    (∀ q ∈ V, 0 ≤ q.1 ∧ q.1 < size.1 + poissonR size res ∧
      0 ≤ q.2.1 ∧ q.2.1 < size.2 + poissonR size res ∧ q.2.2 = 0) ∧
    ∃ ext : List Vec2,
      V = ((poissonInit size (poissonR size res) u) ++ ext).map liftZ ∧
      ext.all (inRectB size) = true := by
  have hr : 0 < poissonR size res :=
    div_pos (lt_min hw hh) (by exact_mod_cast hres)
  unfold Mesh.poisson_plane at h
  rw [Option.map_eq_some'] at h
  obtain ⟨V2, hl, rfl⟩ := h
  obtain ⟨ext, h1, h2⟩ := poissonLoop_ext size (poissonR size res) k rounds
    (poissonInit size (poissonR size res) u)
    [(u.1 * size.1, u.2 * size.2)] V2 hl
  have hextrect := acceptedExt_inRect size (poissonR size res) ext
    (poissonInit size (poissonR size res) u) h2
  constructor
  · intro q hq
    rw [h1] at hq
    simp only [List.mem_map, List.mem_append] at hq
    obtain ⟨p, hp, rfl⟩ := hq
    rcases hp with hp | hp
    · obtain ⟨b1, b2, b3, b4⟩ := poissonInit_bounds size (poissonR size res) u
        hw hh hr hu1 hu1' hu2 hu2' p hp
      exact ⟨b1, b2, b3, b4, rfl⟩
    · have hx := List.all_eq_true.mp hextrect p hp
      simp only [inRectB, Bool.and_eq_true, decide_eq_true_eq] at hx
      refine ⟨hx.1.1.1, ?_, hx.1.2, ?_, rfl⟩
      · show p.1 < size.1 + poissonR size res
        linarith [hx.1.1.2]
      · show p.2 < size.2 + poissonR size res
        linarith [hx.2]
  · exact ⟨ext, by rw [h1], hextrect⟩

/-- C4 (counterexample): for the rectangle `(1, 4/5)` at resolution 2 the
spacing is `r = 2/5`, which does not divide the width 1; the border seeding
`np.arange(0, 1 + 2/5, 2/5)` then produces `6/5 > 1`, so the completed mesh
contains the vertex `(6/5, 0, 0)`, outside `[0, 1] × [0, 4/5]`. -/
theorem poisson_bounds_cex :
    poissonR (1, 4/5) 2 = 2/5 ∧
    Mesh.poisson_plane (1, 4/5) 2 3 (1/2, 1/2) cex4Rounds =
      some ((poissonInit (1, 4/5) (2/5) (1/2, 1/2)).map liftZ) ∧
    ((6 : ℚ)/5, (0 : ℚ), (0 : ℚ)) ∈
      (poissonInit (1, 4/5) (2/5) (1/2, 1/2)).map liftZ ∧
    ¬((6 : ℚ)/5 ≤ 1) := by
  decide

/-- Witness for `poisson_bounds_amended`, applied to the border-overshoot
run of the counterexample: its hypotheses are concrete and the conclusion
bounds every vertex by the expanded rectangle. -/
theorem poisson_bounds_amended_witness :
    ((0 : ℚ) < 1 ∧ (0 : ℚ) < 4/5 ∧ 0 < 2 ∧
      (0 : ℚ) ≤ 1/2 ∧ (1 : ℚ)/2 < 1) ∧
    ((∀ q ∈ (poissonInit (1, 4/5) (2/5) (1/2, 1/2)).map liftZ,
      0 ≤ q.1 ∧ q.1 < (1 : ℚ) + poissonR (1, 4/5) 2 ∧
      0 ≤ q.2.1 ∧ q.2.1 < (4 : ℚ)/5 + poissonR (1, 4/5) 2 ∧ q.2.2 = 0) ∧
    ∃ ext : List Vec2,
      (poissonInit (1, 4/5) (2/5) (1/2, 1/2)).map liftZ =
        ((poissonInit (1, 4/5) (poissonR (1, 4/5) 2) (1/2, 1/2)) ++ ext).map
          liftZ ∧
      ext.all (inRectB (1, 4/5)) = true) :=
  ⟨⟨by decide, by decide, by decide, by decide, by decide⟩,
    poisson_bounds_amended (1, 4/5) 2 3 (1/2, 1/2) cex4Rounds _
      (by decide) (by decide) (by decide) (by decide) (by decide) (by decide)
      (by decide) (by decide)⟩

/-! ## Claim C6 — `Mesh.save` / `Mesh.load` round-trip -/

/-- Digit characters decode to their value. -/
theorem digitVal_digitChar (d : ℕ) (hd : d < 10) :
    digitVal (digitChar d) = d := by
  interval_cases d <;> decide

/-- Digit characters are digits. -/
theorem isDigit_digitChar (d : ℕ) (hd : d < 10) :
    (digitChar d).isDigit = true := by
  interval_cases d <;> decide

/-- A digit character is none of the separator characters. -/
theorem isDigit_ne (c : Char) (h : c.isDigit = true) :
    c ≠ '.' ∧ c ≠ 'e' ∧ c ≠ 'E' ∧ c ≠ '-' ∧ c ≠ '+' ∧ c ≠ ' ' ∧ c ≠ '/' := by
  refine ⟨?_, ?_, ?_, ?_, ?_, ?_, ?_⟩ <;>
    (intro hc; rw [hc] at h; exact absurd h (by decide))

/-- A digit character is not whitespace. -/
theorem not_whitespace_of_isDigit (c : Char) (h : c.isDigit = true) :
    c.isWhitespace = false := by
  cases hw : c.isWhitespace
  · rfl
  · exfalso
    simp only [Char.isWhitespace, Bool.or_eq_true, decide_eq_true_eq] at hw
    rcases hw with ((hc | hc) | hc) | hc <;>
      (rw [hc] at h; exact absurd h (by decide))

/-- Value of a most-significant-first rendering of a digit list. -/
theorem digitsVal_render (L : List ℕ) (hL : ∀ d ∈ L, d < 10) :
    digitsVal (L.reverse.map digitChar) = Nat.ofDigits 10 L := by
  induction L with
  | nil => rfl
  | cons d ds ih =>
    have hds : ∀ x ∈ ds, x < 10 := fun x hx => hL x (List.mem_cons_of_mem d hx)
    have hd : d < 10 := hL d (List.mem_cons_self d ds)
    rw [List.reverse_cons, List.map_append]
    show List.foldl _ 0 _ = _
    rw [List.foldl_append]
    show 10 * digitsVal (ds.reverse.map digitChar) + digitVal (digitChar d) = _
    rw [ih hds, digitVal_digitChar d hd, Nat.ofDigits_cons]
    omega

/-- All characters of a rendered digit list are digits. -/
theorem all_isDigit_render (L : List ℕ) (hL : ∀ d ∈ L, d < 10) :
    ∀ c ∈ L.reverse.map digitChar, c.isDigit = true := by
  intro c hc
  obtain ⟨d, hd, rfl⟩ := List.mem_map.mp hc
  exact isDigit_digitChar d (hL d (List.mem_reverse.mp hd))

/-- The fuel recursion computes `Nat.digits 10` once the fuel covers the
argument. -/
theorem digitsF_eq (fuel n : ℕ) (h : n ≤ fuel) :
    digitsF fuel n = Nat.digits 10 n := by
  induction fuel generalizing n with
  | zero =>
    rw [Nat.le_zero.mp h]
    simp [digitsF]
  | succ fuel ih =>
    by_cases hn : n = 0
    · subst hn
      simp [digitsF]
    · rw [digitsF, if_neg hn, ih (n / 10) (by omega),
        Nat.digits_def' (by norm_num : (1 : ℕ) < 10) (Nat.pos_of_ne_zero hn)]

/-- `digits10` agrees with `Nat.digits 10`. -/
theorem digits10_eq (n : ℕ) : digits10 n = Nat.digits 10 n :=
  digitsF_eq n n le_rfl

/-- Characters of `fmtNat` are digits, and the output is non-empty. -/
theorem fmtNat_facts (n : ℕ) :
    (∀ c ∈ fmtNat n, c.isDigit = true) ∧ fmtNat n ≠ [] := by
  by_cases h : n = 0
  · subst h
    exact ⟨by decide, by decide⟩
  · unfold fmtNat
    rw [if_neg h, digits10_eq]
    refine ⟨all_isDigit_render _ (fun d hd => Nat.digits_lt_base (by norm_num) hd), ?_⟩
    simp only [ne_eq, List.map_eq_nil_iff, List.reverse_eq_nil_iff]
    exact Nat.digits_ne_nil_iff_ne_zero.mpr h

/-- `parseNatC` inverts `fmtNat`. -/
theorem parseNatC_fmtNat (n : ℕ) : parseNatC (fmtNat n) = some n := by
  by_cases h : n = 0
  · subst h
    decide
  · obtain ⟨hdig, hne⟩ := fmtNat_facts n
    unfold parseNatC
    rw [if_pos ⟨hne, List.all_eq_true.mpr (fun c hc => by simpa using hdig c hc)⟩]
    unfold fmtNat
    rw [if_neg h, digits10_eq]
    show some (digitsVal _) = _
    have heq : digitsVal ((Nat.digits 10 n).reverse.map digitChar) =
        Nat.ofDigits 10 (Nat.digits 10 n) :=
      digitsVal_render _ (fun d hd => Nat.digits_lt_base (by norm_num) hd)
    rw [heq, Nat.ofDigits_digits]

/-- Digit-list length bound from a power bound. -/
theorem digits_len_le_of_lt_pow (f k : ℕ) (hf : f < 10 ^ k) :
    (Nat.digits 10 f).length ≤ k := by
  by_cases h : f = 0
  · subst h
    simp
  · rw [Nat.digits_len 10 f (by norm_num) h]
    have := Nat.log_lt_of_lt_pow h hf
    omega

/-- Leading zeros do not change the parsed value. -/
theorem digitsVal_replicate_zero (z : ℕ) (rest : List Char) :
    digitsVal (List.replicate z '0' ++ rest) =
      List.foldl (fun acc c => 10 * acc + digitVal c) 0 rest := by
  induction z with
  | zero => rfl
  | succ n ih =>
    rw [List.replicate_succ, List.cons_append]
    show List.foldl (fun acc c => 10 * acc + digitVal c)
      (10 * 0 + digitVal '0') (List.replicate n '0' ++ rest) = _
    have h0 : 10 * 0 + digitVal '0' = 0 := by decide
    rw [h0]
    exact ih

/-- `fmtNatPad` facts: exact length, all digits, and value. -/
theorem fmtNatPad_facts (k f : ℕ) (hf : f < 10 ^ k) :
    (fmtNatPad k f).length = k ∧
    (∀ c ∈ fmtNatPad k f, c.isDigit = true) ∧
    digitsVal (fmtNatPad k f) = f := by
  have hlen : (Nat.digits 10 f).length ≤ k := digits_len_le_of_lt_pow f k hf
  refine ⟨?_, ?_, ?_⟩
  · unfold fmtNatPad
    rw [digits10_eq, List.length_append, List.length_replicate, List.length_map,
      List.length_reverse]
    omega
  · intro c hc
    unfold fmtNatPad at hc
    rw [digits10_eq] at hc
    rcases List.mem_append.mp hc with hc | hc
    · rw [List.eq_of_mem_replicate hc]
      decide
    · exact all_isDigit_render _
        (fun d hd => Nat.digits_lt_base (by norm_num) hd) c hc
  · unfold fmtNatPad
    rw [digits10_eq, digitsVal_replicate_zero]
    show digitsVal ((Nat.digits 10 f).reverse.map digitChar) = f
    rw [digitsVal_render _ (fun d hd => Nat.digits_lt_base (by norm_num) hd),
      Nat.ofDigits_digits]

/-- Value of `fmtNat`. -/
theorem digitsVal_fmtNat (n : ℕ) : digitsVal (fmtNat n) = n := by
  by_cases h : n = 0
  · subst h
    decide
  · unfold fmtNat
    rw [if_neg h, digits10_eq,
      digitsVal_render _ (fun d hd => Nat.digits_lt_base (by norm_num) hd),
      Nat.ofDigits_digits]

/-- `splitFirst` misses an absent character. -/
theorem splitFirst_eq_none (c : Char) (l : List Char) (h : c ∉ l) :
    splitFirst c l = none := by
  induction l with
  | nil => rfl
  | cons x xs ih =>
    have hx : ¬x = c := fun hc => h (hc ▸ List.mem_cons_self x xs)
    rw [splitFirst, if_neg hx, ih (fun hc => h (List.mem_cons_of_mem x hc))]
    rfl

/-- `splitFirst` finds the first occurrence. -/
theorem splitFirst_append_cons (c : Char) (A B : List Char) (hA : c ∉ A) :
    splitFirst c (A ++ c :: B) = some (A, B) := by
  induction A with
  | nil =>
    show splitFirst c (c :: B) = _
    rw [splitFirst, if_pos rfl]
  | cons x xs ih =>
    have hx : ¬x = c := fun hc => hA (hc ▸ List.mem_cons_self x xs)
    rw [List.cons_append, splitFirst, if_neg hx,
      ih (fun hc => hA (List.mem_cons_of_mem x hc))]
    rfl

/-- `splitLazy` on a field followed by its separator. -/
theorem splitLazy_append_cons (c : Char) (A B : List Char)
    (hA : c ∉ A) (h0 : A ≠ []) :
    splitLazy c (A ++ c :: B) = some (A, B) := by
  cases A with
  | nil => exact absurd rfl h0
  | cons a as =>
    have ha : c ∉ as := fun hc => hA (List.mem_cons_of_mem a hc)
    rw [List.cons_append, splitLazy, splitFirst_append_cons c as B ha]
    rfl

/-- `head?` of an append with a non-empty left part. -/
theorem head?_append_left {α : Type} (A B : List α) (h : A ≠ []) :
    (A ++ B).head? = A.head? := by
  cases A with
  | nil => exact absurd rfl h
  | cons a as => rfl

/-- `getLast?` of an append with a non-empty right part. -/
theorem getLast?_append_right {α : Type} (A B : List α) (h : B ≠ []) :
    (A ++ B).getLast? = B.getLast? := by
  rw [List.getLast?_append]
  cases hB : B.getLast? with
  | none => exact absurd (List.getLast?_eq_none_iff.mp hB) h
  | some b => rfl

/-- `dropWhile` is the identity when the head fails the predicate. -/
theorem dropWhile_eq_self_head {α : Type} (p : α → Bool) (l : List α)
    (h : ∀ c, l.head? = some c → p c = false) : l.dropWhile p = l := by
  cases l with
  | nil => rfl
  | cons a as => exact List.dropWhile_cons_of_neg (by simp [h a rfl])

/-- `strip` is the identity when both ends are not whitespace. -/
theorem stripC_eq_self (l : List Char)
    (h1 : ∀ c, l.head? = some c → c.isWhitespace = false)
    (h2 : ∀ c, l.getLast? = some c → c.isWhitespace = false) :
    stripC l = l := by
  unfold stripC
  rw [dropWhile_eq_self_head _ l h1,
    dropWhile_eq_self_head _ l.reverse
      (fun c hc => h2 c (by rwa [List.head?_reverse] at hc)),
    List.reverse_reverse]

/-- Characters of `fmtInt` are digits or a sign, and the output is
non-empty. -/
theorem fmtInt_facts (z : ℤ) :
    (∀ c ∈ fmtInt z, c.isDigit = true ∨ c = '-') ∧ fmtInt z ≠ [] := by
  unfold fmtInt
  by_cases hz : z < 0
  · rw [if_pos hz]
    refine ⟨?_, by simp⟩
    intro c hc
    rcases List.mem_cons.mp hc with rfl | hc
    · exact Or.inr rfl
    · exact Or.inl ((fmtNat_facts z.natAbs).1 c hc)
  · rw [if_neg hz]
    exact ⟨fun c hc => Or.inl ((fmtNat_facts z.natAbs).1 c hc),
      (fmtNat_facts z.natAbs).2⟩

/-- `parseIntC` inverts `fmtInt`. -/
theorem parseIntC_fmtInt (z : ℤ) : parseIntC (fmtInt z) = some z := by
  have hchars := fmtInt_facts z
  have hstrip : stripC (fmtInt z) = fmtInt z := by
    refine stripC_eq_self _ ?_ ?_
    · intro c hc
      have hm : c ∈ fmtInt z := by
        cases hF : fmtInt z with
        | nil => rw [hF] at hc; cases hc
        | cons a as =>
          rw [hF] at hc
          exact (Option.some_inj.mp hc) ▸ List.mem_cons_self a as
      rcases hchars.1 c hm with hd | rfl
      · exact not_whitespace_of_isDigit c hd
      · decide
    · intro c hc
      have hm : c ∈ fmtInt z := List.mem_of_mem_getLast? hc
      rcases hchars.1 c hm with hd | rfl
      · exact not_whitespace_of_isDigit c hd
      · decide
  by_cases hz : z < 0
  · have hF : fmtInt z = '-' :: fmtNat z.natAbs := by
      unfold fmtInt
      rw [if_pos hz]
    unfold parseIntC
    rw [hstrip, hF]
    simp only [List.head?_cons]
    rw [if_pos trivial]
    show (parseNatC (fmtNat z.natAbs)).map _ = _
    rw [parseNatC_fmtNat]
    show some (-(z.natAbs : ℤ)) = some z
    congr 1
    omega
  · have hF : fmtInt z = fmtNat z.natAbs := by
      unfold fmtInt
      rw [if_neg hz]
    obtain ⟨c0, cs0, hcons⟩ := List.exists_cons_of_ne_nil (fmtNat_facts z.natAbs).2
    have hc0 : c0.isDigit = true := by
      apply (fmtNat_facts z.natAbs).1
      rw [hcons]
      exact List.mem_cons_self c0 cs0
    have hne := isDigit_ne c0 hc0
    unfold parseIntC
    rw [hstrip, hF, hcons]
    simp only [List.head?_cons]
    rw [if_neg (by simpa using hne.2.2.2.1), if_neg (by simpa using hne.2.2.2.2.1)]
    show (parseNatC (c0 :: cs0)).map _ = _
    rw [← hcons, parseNatC_fmtNat]
    show some ((z.natAbs : ℤ)) = some z
    congr 1
    omega

/-- Unpacking of a successful `fmtFloat`. -/
theorem fmtFloat_spec (q : ℚ) (cs : List Char) (h : fmtFloat q = some cs) :
    ∃ k : ℕ, 0 < k ∧ q.den ∣ 10 ^ k ∧
      cs = (if q.num < 0 then ['-'] else []) ++
        fmtNat (q.num.natAbs * 10 ^ k / q.den / 10 ^ k) ++
        '.' :: fmtNatPad k (q.num.natAbs * 10 ^ k / q.den % 10 ^ k) := by
  unfold fmtFloat at h
  cases hde : decExponent q with
  | none => rw [hde] at h; cases h
  | some k0 =>
    rw [hde] at h
    simp only [Option.map_some'] at h
    refine ⟨max k0 1, by omega, ?_, (Option.some_inj.mp h).symm⟩
    unfold decExponent at hde
    by_cases hcond : q.den =
        2 ^ countFactor 2 q.den * 5 ^ countFactor 5 q.den
    · rw [if_pos hcond] at hde
      have hk0 : max (countFactor 2 q.den) (countFactor 5 q.den) = k0 :=
        Option.some_inj.mp hde
      have ha : countFactor 2 q.den ≤ max k0 1 := by omega
      have hb : countFactor 5 q.den ≤ max k0 1 := by omega
      rw [hcond]
      have hdvd : 2 ^ countFactor 2 q.den * 5 ^ countFactor 5 q.den ∣
          2 ^ max k0 1 * 5 ^ max k0 1 :=
        mul_dvd_mul (pow_dvd_pow 2 ha) (pow_dvd_pow 5 hb)
      rw [← mul_pow] at hdvd
      norm_num at hdvd
      exact hdvd
    · rw [if_neg hcond] at hde
      cases hde

/-- The printed mantissa recovers `|num| / den` exactly. -/
theorem fmtFloat_value (q : ℚ) (k : ℕ) (hdvd : q.den ∣ 10 ^ k) :
    ((q.num.natAbs * 10 ^ k / q.den / 10 ^ k : ℕ) : ℚ) +
      ((q.num.natAbs * 10 ^ k / q.den % 10 ^ k : ℕ) : ℚ) / (10 : ℚ) ^ k =
      (q.num.natAbs : ℚ) / (q.den : ℚ) := by
  have hm : (q.num.natAbs * 10 ^ k / q.den) * q.den = q.num.natAbs * 10 ^ k :=
    Nat.div_mul_cancel (Dvd.dvd.mul_left hdvd _)
  have hsplit : q.num.natAbs * 10 ^ k / q.den / 10 ^ k * 10 ^ k +
      q.num.natAbs * 10 ^ k / q.den % 10 ^ k =
      q.num.natAbs * 10 ^ k / q.den := by
    rw [Nat.mul_comm]
    exact Nat.div_add_mod _ _
  have h10 : ((10 : ℚ)) ^ k ≠ 0 := by positivity
  have hden : ((q.den : ℚ)) ≠ 0 := by exact_mod_cast q.den_nz
  have hmQ : ((q.num.natAbs * 10 ^ k / q.den : ℕ) : ℚ) * (q.den : ℚ) =
      (q.num.natAbs : ℚ) * (10 : ℚ) ^ k := by exact_mod_cast hm
  have hsplitQ : ((q.num.natAbs * 10 ^ k / q.den / 10 ^ k : ℕ) : ℚ) *
        (10 : ℚ) ^ k +
      ((q.num.natAbs * 10 ^ k / q.den % 10 ^ k : ℕ) : ℚ) =
      ((q.num.natAbs * 10 ^ k / q.den : ℕ) : ℚ) := by exact_mod_cast hsplit
  calc ((q.num.natAbs * 10 ^ k / q.den / 10 ^ k : ℕ) : ℚ) +
      ((q.num.natAbs * 10 ^ k / q.den % 10 ^ k : ℕ) : ℚ) / (10 : ℚ) ^ k =
      (((q.num.natAbs * 10 ^ k / q.den / 10 ^ k : ℕ) : ℚ) * (10 : ℚ) ^ k +
        ((q.num.natAbs * 10 ^ k / q.den % 10 ^ k : ℕ) : ℚ)) / (10 : ℚ) ^ k := by
        field_simp
    _ = ((q.num.natAbs * 10 ^ k / q.den : ℕ) : ℚ) / (10 : ℚ) ^ k := by
        rw [hsplitQ]
    _ = (q.num.natAbs : ℚ) / (q.den : ℚ) := by
        rw [div_eq_div_iff h10 hden]
        rw [hmQ]

/-- `|num| / den` is `|q|`. -/
theorem natAbs_div_den_eq_abs (q : ℚ) :
    (q.num.natAbs : ℚ) / (q.den : ℚ) = |q| := by
  conv_rhs => rw [← Rat.num_div_den q]
  rw [abs_div]
  congr 1
  · rw [Int.cast_natAbs, Int.cast_abs]
  · rw [abs_of_nonneg (Nat.cast_nonneg q.den)]

/-- `parseFloatC` inverts `fmtFloat`. -/
theorem parseFloatC_fmtFloat (q : ℚ) (cs : List Char) (h : fmtFloat q = some cs) :
    parseFloatC cs = some q := by
  obtain ⟨k, hk, hdvd, rfl⟩ := fmtFloat_spec q cs h
  have hflt : q.num.natAbs * 10 ^ k / q.den % 10 ^ k < 10 ^ k :=
    Nat.mod_lt _ (by positivity)
  obtain ⟨hPlen, hPdig, hPval⟩ := fmtNatPad_facts k _ hflt
  obtain ⟨hWdig, hWne⟩ := fmtNat_facts (q.num.natAbs * 10 ^ k / q.den / 10 ^ k)
  have hPne : fmtNatPad k (q.num.natAbs * 10 ^ k / q.den % 10 ^ k) ≠ [] := by
    intro hnil
    rw [hnil] at hPlen
    simp only [List.length_nil] at hPlen
    omega
  have hWnodot : '.' ∉ fmtNat (q.num.natAbs * 10 ^ k / q.den / 10 ^ k) :=
    fun hc => (isDigit_ne _ (hWdig _ hc)).1 rfl
  have hbody_e : 'e' ∉ fmtNat (q.num.natAbs * 10 ^ k / q.den / 10 ^ k) ++
      '.' :: fmtNatPad k (q.num.natAbs * 10 ^ k / q.den % 10 ^ k) := by
    intro hc
    rcases List.mem_append.mp hc with hc | hc
    · exact (isDigit_ne _ (hWdig _ hc)).2.1 rfl
    · rcases List.mem_cons.mp hc with hc | hc
      · exact absurd hc (by decide)
      · exact (isDigit_ne _ (hPdig _ hc)).2.1 rfl
  have hbody_E : 'E' ∉ fmtNat (q.num.natAbs * 10 ^ k / q.den / 10 ^ k) ++
      '.' :: fmtNatPad k (q.num.natAbs * 10 ^ k / q.den % 10 ^ k) := by
    intro hc
    rcases List.mem_append.mp hc with hc | hc
    · exact (isDigit_ne _ (hWdig _ hc)).2.2.1 rfl
    · rcases List.mem_cons.mp hc with hc | hc
      · exact absurd hc (by decide)
      · exact (isDigit_ne _ (hPdig _ hc)).2.2.1 rfl
  have hbody_mem : ∀ c ∈ fmtNat (q.num.natAbs * 10 ^ k / q.den / 10 ^ k) ++
      '.' :: fmtNatPad k (q.num.natAbs * 10 ^ k / q.den % 10 ^ k),
      c.isWhitespace = false := by
    intro c hc
    rcases List.mem_append.mp hc with hc | hc
    · exact not_whitespace_of_isDigit c (hWdig c hc)
    · rcases List.mem_cons.mp hc with rfl | hc
      · decide
      · exact not_whitespace_of_isDigit c (hPdig c hc)
  have hcore : parseDecCore
      (fmtNat (q.num.natAbs * 10 ^ k / q.den / 10 ^ k) ++
        '.' :: fmtNatPad k (q.num.natAbs * 10 ^ k / q.den % 10 ^ k)) =
      some (((q.num.natAbs * 10 ^ k / q.den / 10 ^ k : ℕ) : ℚ) +
        ((q.num.natAbs * 10 ^ k / q.den % 10 ^ k : ℕ) : ℚ) / (10 : ℚ) ^ k) := by
    unfold parseDecCore
    rw [splitFirst_eq_none 'e' _ hbody_e]
    show (match splitFirst 'E' _ with
      | some (m, ex) => _
      | none => parseMantissa _) = _
    rw [splitFirst_eq_none 'E' _ hbody_E]
    show parseMantissa _ = _
    unfold parseMantissa
    rw [splitFirst_append_cons '.' _ _ hWnodot]
    show (if _ then _ else _) = _
    rw [if_pos ⟨Or.inl hWne,
      List.all_eq_true.mpr (fun c hc => by simpa using hWdig c hc),
      List.all_eq_true.mpr (fun c hc => by simpa using hPdig c hc)⟩]
    rw [digitsVal_fmtNat, hPval, hPlen]
  have hval := fmtFloat_value q k hdvd
  rw [natAbs_div_den_eq_abs] at hval
  by_cases hneg : q.num < 0
  · rw [if_pos hneg]
    show parseFloatC ('-' :: (fmtNat _ ++ '.' :: fmtNatPad k _)) = some q
    have hstrip : stripC ('-' :: (fmtNat (q.num.natAbs * 10 ^ k / q.den / 10 ^ k) ++
        '.' :: fmtNatPad k (q.num.natAbs * 10 ^ k / q.den % 10 ^ k))) =
        '-' :: (fmtNat (q.num.natAbs * 10 ^ k / q.den / 10 ^ k) ++
        '.' :: fmtNatPad k (q.num.natAbs * 10 ^ k / q.den % 10 ^ k)) := by
      refine stripC_eq_self _ ?_ ?_
      · intro c hc
        cases Option.some_inj.mp hc
        decide
      · intro c hc
        have hm : c ∈ fmtNat (q.num.natAbs * 10 ^ k / q.den / 10 ^ k) ++
            '.' :: fmtNatPad k (q.num.natAbs * 10 ^ k / q.den % 10 ^ k) := by
          apply List.mem_of_mem_getLast?
          rwa [show ('-' :: (fmtNat (q.num.natAbs * 10 ^ k / q.den / 10 ^ k) ++
            '.' :: fmtNatPad k (q.num.natAbs * 10 ^ k / q.den % 10 ^ k))) =
            ['-'] ++ (fmtNat (q.num.natAbs * 10 ^ k / q.den / 10 ^ k) ++
            '.' :: fmtNatPad k (q.num.natAbs * 10 ^ k / q.den % 10 ^ k)) from rfl,
            getLast?_append_right _ _ (by simp)] at hc
        exact hbody_mem c hm
    unfold parseFloatC
    rw [hstrip]
    simp only [List.head?_cons]
    rw [if_pos trivial, List.tail_cons, hcore]
    show some (-(((q.num.natAbs * 10 ^ k / q.den / 10 ^ k : ℕ) : ℚ) +
      ((q.num.natAbs * 10 ^ k / q.den % 10 ^ k : ℕ) : ℚ) / (10 : ℚ) ^ k)) = some q
    rw [hval]
    congr 1
    have hq : q < 0 := by
      by_contra hq
      push_neg at hq
      exact absurd (Rat.num_nonneg.mpr hq) (by omega)
    rw [abs_of_neg hq, neg_neg]
  · rw [if_neg hneg]
    show parseFloatC (fmtNat _ ++ '.' :: fmtNatPad k _) = some q
    obtain ⟨c0, cs0, hcons⟩ := List.exists_cons_of_ne_nil hWne
    have hc0 : c0.isDigit = true := by
      apply hWdig
      rw [hcons]
      exact List.mem_cons_self c0 cs0
    have hne0 := isDigit_ne c0 hc0
    have hhead : (fmtNat (q.num.natAbs * 10 ^ k / q.den / 10 ^ k) ++
        '.' :: fmtNatPad k (q.num.natAbs * 10 ^ k / q.den % 10 ^ k)).head? =
        some c0 := by
      rw [head?_append_left _ _ hWne, hcons]
      rfl
    have hstrip : stripC (fmtNat (q.num.natAbs * 10 ^ k / q.den / 10 ^ k) ++
        '.' :: fmtNatPad k (q.num.natAbs * 10 ^ k / q.den % 10 ^ k)) =
        fmtNat (q.num.natAbs * 10 ^ k / q.den / 10 ^ k) ++
        '.' :: fmtNatPad k (q.num.natAbs * 10 ^ k / q.den % 10 ^ k) := by
      refine stripC_eq_self _ ?_ ?_
      · intro c hc
        rw [hhead] at hc
        cases Option.some_inj.mp hc
        exact not_whitespace_of_isDigit c0 hc0
      · intro c hc
        exact hbody_mem c (List.mem_of_mem_getLast? hc)
    unfold parseFloatC
    rw [hstrip]
    simp only [hhead]
    rw [if_neg (fun hEq => hne0.2.2.2.1 (Option.some_inj.mp hEq)),
      if_neg (fun hEq => hne0.2.2.2.2.1 (Option.some_inj.mp hEq)),
      hcore, hval, abs_of_nonneg (Rat.num_nonneg.mp (Int.not_lt.mp hneg))]


/-- `startsWithC` holds on an appended literal prefix. -/
theorem startsWithC_append (p l : List Char) : startsWithC p (p ++ l) = true := by
  induction p with
  | nil => rfl
  | cons x xs ih => simp [startsWithC, ih]

/-- `getLast?` through a leading cons with non-empty tail. -/
theorem getLast?_cons_of_ne_nil {α : Type} (x : α) (l : List α) (h : l ≠ []) :
    (x :: l).getLast? = l.getLast? := by
  rw [show x :: l = [x] ++ l from rfl, getLast?_append_right _ _ h]

/-- `getLast?` of a three-field line body is the last field's. -/
theorem getLast?_field3 (p a b c : List Char) (hc0 : c ≠ []) :
    (p ++ (a ++ ' ' :: (b ++ ' ' :: c))).getLast? = c.getLast? := by
  rw [getLast?_append_right _ _ (by simp),
    getLast?_append_right _ _ (by simp),
    getLast?_cons_of_ne_nil _ _ (by simp),
    getLast?_append_right _ _ (by simp),
    getLast?_cons_of_ne_nil _ _ hc0]

/-- `containsC` is false when the character is absent. -/
theorem containsC_eq_false (c : Char) (l : List Char) (h : c ∉ l) :
    containsC c l = false := by
  cases hb : containsC c l
  · rfl
  · exact absurd (List.elem_iff.mp hb) h

/-- Character inventory of a `fmtFloat` output: non-empty, and every
character is a digit, `'-'`, or `'.'`. -/
theorem fmtFloat_chars (q : ℚ) (cs : List Char) (h : fmtFloat q = some cs) :
    cs ≠ [] ∧ ∀ c ∈ cs, c.isDigit = true ∨ c = '-' ∨ c = '.' := by
  obtain ⟨k, hk, hdvd, rfl⟩ := fmtFloat_spec q cs h
  have hflt : q.num.natAbs * 10 ^ k / q.den % 10 ^ k < 10 ^ k :=
    Nat.mod_lt _ (by positivity)
  obtain ⟨hPlen, hPdig, hPval⟩ := fmtNatPad_facts k _ hflt
  constructor
  · intro hnil
    rcases List.append_eq_nil.mp hnil with ⟨h1, h2⟩
    exact List.cons_ne_nil _ _ h2
  · intro ch hch
    rcases List.mem_append.mp hch with hch | hch
    · rcases List.mem_append.mp hch with hch | hch
      · by_cases hneg : q.num < 0
        · rw [if_pos hneg] at hch
          exact Or.inr (Or.inl (List.mem_singleton.mp hch))
        · rw [if_neg hneg] at hch
          exact absurd hch (List.not_mem_nil ch)
      · exact Or.inl ((fmtNat_facts _).1 ch hch)
    · rcases List.mem_cons.mp hch with rfl | hch
      · exact Or.inr (Or.inr rfl)
      · exact Or.inl (hPdig ch hch)

/-- A `fmtFloat` output contains no space. -/
theorem fmtFloat_no_space (q : ℚ) (cs : List Char) (h : fmtFloat q = some cs) :
    ' ' ∉ cs := by
  intro hm
  rcases (fmtFloat_chars q cs h).2 ' ' hm with hd | hd | hd
  · exact absurd hd (by decide)
  · exact absurd hd (by decide)
  · exact absurd hd (by decide)

/-- The last character of a `fmtFloat` output is not whitespace. -/
theorem fmtFloat_last_not_ws (q : ℚ) (cs : List Char) (h : fmtFloat q = some cs) :
    ∀ ch, cs.getLast? = some ch → ch.isWhitespace = false := by
  intro ch hch
  rcases (fmtFloat_chars q cs h).2 ch (List.mem_of_mem_getLast? hch) with hd | hd | hd
  · exact not_whitespace_of_isDigit ch hd
  · subst hd
    decide
  · subst hd
    decide

/-- A `fmtInt` output contains no space. -/
theorem fmtInt_no_space (z : ℤ) : ' ' ∉ fmtInt z := by
  intro hm
  rcases (fmtInt_facts z).1 ' ' hm with hd | hd
  · exact absurd hd (by decide)
  · exact absurd hd (by decide)

/-- A `fmtInt` output contains no slash. -/
theorem fmtInt_no_slash (z : ℤ) : '/' ∉ fmtInt z := by
  intro hm
  rcases (fmtInt_facts z).1 '/' hm with hd | hd
  · exact absurd hd (by decide)
  · exact absurd hd (by decide)

/-- The last character of a `fmtInt` output is not whitespace. -/
theorem fmtInt_last_not_ws (z : ℤ) :
    ∀ ch, (fmtInt z).getLast? = some ch → ch.isWhitespace = false := by
  intro ch hch
  rcases (fmtInt_facts z).1 ch (List.mem_of_mem_getLast? hch) with hd | hd
  · exact not_whitespace_of_isDigit ch hd
  · subst hd
    decide

/-- `matchT3` on a line built from three space-free non-empty fields. -/
theorem matchT3_build (lit a b c : List Char)
    (ha0 : a ≠ []) (ha : ' ' ∉ a) (hb0 : b ≠ []) (hb : ' ' ∉ b) (hc0 : c ≠ []) :
    matchT3 lit (lit ++ (a ++ ' ' :: (b ++ ' ' :: c))) = some (a, b, c) := by
  unfold matchT3
  rw [if_pos (startsWithC_append lit _), List.drop_left,
    splitLazy_append_cons ' ' a _ ha ha0]
  simp only [Option.bind_eq_bind, Option.some_bind]
  rw [splitLazy_append_cons ' ' b _ hb hb0]
  simp only [Option.bind_eq_bind, Option.some_bind]
  rw [if_neg hc0]
  rfl

/-- `loadStep` on a saved vertex line appends the vertex. -/
theorem loadStep_vLine (acc : List Vec3 × List (ℤ × ℤ × ℤ)) (x y z : ℚ)
    (a b c : List Char) (hax : fmtFloat x = some a) (hby : fmtFloat y = some b)
    (hcz : fmtFloat z = some c) :
    loadStep acc ('v' :: ' ' :: (a ++ ' ' :: b ++ ' ' :: c)) =
      some (acc.1 ++ [(x, y, z)], acc.2) := by
  have hstrip : stripC (['v', ' '] ++ (a ++ ' ' :: (b ++ ' ' :: c))) =
      ['v', ' '] ++ (a ++ ' ' :: (b ++ ' ' :: c)) := by
    refine stripC_eq_self _ ?_ ?_
    · intro ch hch
      cases Option.some_inj.mp hch
      decide
    · intro ch hch
      rw [getLast?_field3 _ _ _ _ (fmtFloat_chars z c hcz).1] at hch
      exact fmtFloat_last_not_ws z c hcz ch hch
  have hT3 : matchT3 ['v', ' '] (['v', ' '] ++ (a ++ ' ' :: (b ++ ' ' :: c))) =
      some (a, b, c) :=
    matchT3_build _ _ _ _ (fmtFloat_chars x a hax).1 (fmtFloat_no_space x a hax)
      (fmtFloat_chars y b hby).1 (fmtFloat_no_space y b hby)
      (fmtFloat_chars z c hcz).1
  rw [show ('v' :: ' ' :: (a ++ ' ' :: b ++ ' ' :: c) : List Char) =
    ['v', ' '] ++ (a ++ ' ' :: (b ++ ' ' :: c)) from by simp]
  unfold loadStep
  simp only [hstrip]
  rw [if_pos (show startsWithC ['v'] (['v', ' '] ++ (a ++ ' ' :: (b ++ ' ' :: c))) =
    true from rfl)]
  rw [hT3]
  simp only [Option.bind_eq_bind, Option.some_bind]
  rw [parseFloatC_fmtFloat x a hax]
  simp only [Option.bind_eq_bind, Option.some_bind]
  rw [parseFloatC_fmtFloat y b hby]
  simp only [Option.bind_eq_bind, Option.some_bind]
  rw [parseFloatC_fmtFloat z c hcz]
  simp only [Option.bind_eq_bind, Option.some_bind, Option.pure_def]
  rw [if_neg (fun hAnd => absurd hAnd.1 Bool.false_ne_true)]

/-- `loadStep` on a saved face line appends the 0-based face. -/
theorem loadStep_fLine (acc : List Vec3 × List (ℤ × ℤ × ℤ)) (i j k : ℤ) :
    loadStep acc ('f' :: ' ' :: (fmtInt (i + 1) ++ ' ' :: fmtInt (j + 1) ++
      ' ' :: fmtInt (k + 1))) = some (acc.1, acc.2 ++ [(i, j, k)]) := by
  have hstrip : stripC (['f', ' '] ++ (fmtInt (i + 1) ++
      ' ' :: (fmtInt (j + 1) ++ ' ' :: fmtInt (k + 1)))) =
      ['f', ' '] ++ (fmtInt (i + 1) ++
      ' ' :: (fmtInt (j + 1) ++ ' ' :: fmtInt (k + 1))) := by
    refine stripC_eq_self _ ?_ ?_
    · intro ch hch
      cases Option.some_inj.mp hch
      decide
    · intro ch hch
      rw [getLast?_field3 _ _ _ _ (fmtInt_facts (k + 1)).2] at hch
      exact fmtInt_last_not_ws (k + 1) ch hch
  have hT3 : matchT3 ['f', ' '] (['f', ' '] ++ (fmtInt (i + 1) ++
      ' ' :: (fmtInt (j + 1) ++ ' ' :: fmtInt (k + 1)))) =
      some (fmtInt (i + 1), fmtInt (j + 1), fmtInt (k + 1)) :=
    matchT3_build _ _ _ _ (fmtInt_facts (i + 1)).2 (fmtInt_no_space (i + 1))
      (fmtInt_facts (j + 1)).2 (fmtInt_no_space (j + 1)) (fmtInt_facts (k + 1)).2
  have hnos : containsC '/' (['f', ' '] ++ (fmtInt (i + 1) ++
      ' ' :: (fmtInt (j + 1) ++ ' ' :: fmtInt (k + 1)))) = false := by
    refine containsC_eq_false _ _ ?_
    intro hm
    rcases List.mem_append.mp hm with hm | hm
    · exact (by decide : ('/' : Char) ∈ (['f', ' '] : List Char) → False) hm
    · rcases List.mem_append.mp hm with hm | hm
      · exact fmtInt_no_slash _ hm
      · rcases List.mem_cons.mp hm with h1 | hm
        · exact absurd h1 (by decide)
        · rcases List.mem_append.mp hm with hm | hm
          · exact fmtInt_no_slash _ hm
          · rcases List.mem_cons.mp hm with h1 | hm
            · exact absurd h1 (by decide)
            · exact fmtInt_no_slash _ hm
  rw [show ('f' :: ' ' :: (fmtInt (i + 1) ++ ' ' :: fmtInt (j + 1) ++
      ' ' :: fmtInt (k + 1)) : List Char) =
    ['f', ' '] ++ (fmtInt (i + 1) ++ ' ' :: (fmtInt (j + 1) ++
      ' ' :: fmtInt (k + 1))) from by simp]
  unfold loadStep
  simp only [hstrip]
  rw [if_neg (show ¬(startsWithC ['v'] (['f', ' '] ++ (fmtInt (i + 1) ++
    ' ' :: (fmtInt (j + 1) ++ ' ' :: fmtInt (k + 1)))) = true) from
    fun hv => absurd hv Bool.false_ne_true)]
  simp only [Option.bind_eq_bind, Option.some_bind, Option.pure_def]
  rw [if_pos ⟨rfl, hnos⟩]
  rw [hT3]
  simp only [Option.bind_eq_bind, Option.some_bind]
  rw [parseIntC_fmtInt (i + 1)]
  simp only [Option.bind_eq_bind, Option.some_bind]
  rw [parseIntC_fmtInt (j + 1)]
  simp only [Option.bind_eq_bind, Option.some_bind]
  rw [parseIntC_fmtInt (k + 1)]
  simp only [Option.bind_eq_bind, Option.some_bind, Option.pure_def,
    add_sub_cancel_right]

/-- Folding `loadStep` over the saved vertex lines appends the vertices. -/
theorem load_fold_v (verts : List Vec3) (vlines : List (List Char))
    (h : verts.mapM (fun v => do
        let a ← fmtFloat v.1
        let b ← fmtFloat v.2.1
        let c ← fmtFloat v.2.2
        pure ('v' :: ' ' :: (a ++ ' ' :: b ++ ' ' :: c))) = some vlines)
    (acc : List Vec3 × List (ℤ × ℤ × ℤ)) :
    vlines.foldlM loadStep acc = some (acc.1 ++ verts, acc.2) := by
  induction verts generalizing vlines acc with
  | nil =>
    cases Option.some_inj.mp h
    simp
  | cons v vs ih =>
    rw [List.mapM_cons] at h
    obtain ⟨line, hline, h2⟩ := bind_eq_some_ex h
    obtain ⟨rest, hrest, hpure⟩ := bind_eq_some_ex h2
    cases Option.some_inj.mp hpure
    obtain ⟨a, ha, hline⟩ := bind_eq_some_ex hline
    obtain ⟨b, hb, hline⟩ := bind_eq_some_ex hline
    obtain ⟨c, hc, hline⟩ := bind_eq_some_ex hline
    cases Option.some_inj.mp hline
    rw [List.foldlM_cons, loadStep_vLine acc v.1 v.2.1 v.2.2 a b c ha hb hc]
    simp only [Option.bind_eq_bind, Option.some_bind]
    rw [ih rest hrest _]
    simp

/-- Folding `loadStep` over the saved face lines appends the faces. -/
theorem load_fold_f (faces : List (ℤ × ℤ × ℤ))
    (acc : List Vec3 × List (ℤ × ℤ × ℤ)) :
    (faces.map (fun f => 'f' :: ' ' :: (fmtInt (f.1 + 1) ++
      ' ' :: fmtInt (f.2.1 + 1) ++ ' ' :: fmtInt (f.2.2 + 1)))).foldlM
        loadStep acc = some (acc.1, acc.2 ++ faces) := by
  induction faces generalizing acc with
  | nil => simp
  | cons f fs ih =>
    rw [List.map_cons, List.foldlM_cons,
      loadStep_fLine acc f.1 f.2.1 f.2.2]
    simp only [Option.bind_eq_bind, Option.some_bind]
    rw [ih _]
    simp

/-- C6: the save/load round trip is the identity.  `Mesh.save` prints each
coordinate as its exact decimal form and each face 1-based; `Mesh.load`
parses them back, so `Mesh.load (Mesh.save m) = m`: vertices are recovered
exactly (the printed decimal is the exact value of the stored rational, the
embedding's model of a binary float) and faces are recovered exactly
(written 1-based, read back 0-based). -/
theorem mesh_save_load_roundtrip (m : Mesh) (ls : List (List Char))
    (h : Mesh.save m = some ls) : Mesh.load ls = some m := by
  unfold Mesh.save at h
  obtain ⟨vlines, hv, hrest⟩ := bind_eq_some_ex h
  cases Option.some_inj.mp hrest
  unfold Mesh.load
  rw [List.foldlM_append, load_fold_v m.vertices vlines hv ([], [])]
  simp only [Option.bind_eq_bind, Option.some_bind]
  rw [load_fold_f m.faces _]
  simp

/-- Witness for `mesh_save_load_roundtrip`: a concrete mesh with fractional,
integral, zero, and negative coordinates saves to the expected lines and
loads back to itself. -/
theorem mesh_save_load_roundtrip_witness :
    Mesh.save ⟨[((1 : ℚ)/2, 0, -(3 : ℚ)/4), (1, 2, 3)], [(0, 1, 2)]⟩ =
      some [['v', ' ', '0', '.', '5', ' ', '0', '.', '0', ' ', '-', '0', '.', '7', '5'],
        ['v', ' ', '1', '.', '0', ' ', '2', '.', '0', ' ', '3', '.', '0'],
        ['f', ' ', '1', ' ', '2', ' ', '3']] ∧
    Mesh.load [['v', ' ', '0', '.', '5', ' ', '0', '.', '0', ' ', '-', '0', '.', '7', '5'],
        ['v', ' ', '1', '.', '0', ' ', '2', '.', '0', ' ', '3', '.', '0'],
        ['f', ' ', '1', ' ', '2', ' ', '3']] =
      some ⟨[((1 : ℚ)/2, 0, -(3 : ℚ)/4), (1, 2, 3)], [(0, 1, 2)]⟩ :=
  ⟨by decide, mesh_save_load_roundtrip _ _ (by decide)⟩

end ArcsimPy
